import Mathlib

/-!
Verification development for the whisper-tauri transcription job pipeline
(`src-tauri/src`): a shallow embedding of the job registry, the scheduler,
the per-job pipeline, the transcriber adapter and the output formatter,
with theorems checking the behavioural properties stated in the design
document against the translated code.

Modelling conventions:
* Rust `f32` progress values are modelled as exact rationals (`ℚ`); the
  constants involved (0, 30, 100, 0.7) make the arithmetic exact at the
  granularity the properties talk about.
* Filesystem paths (`std::path::PathBuf`) are modelled as a parent
  directory plus a file stem and an optional extension, mirroring the
  `file_stem`/`extension`/`set_extension` decomposition that the code
  uses.  Paths without a file name (never produced by the media gate)
  are not representable.
* The external world of one job run (ffmpeg outcome, whisper context
  creation, engine progress callbacks, produced segments, output write
  outcome) is an explicit oracle record `JobEnv`; the pipeline body is
  translated into the sequence of shared-state events it performs.
-/

namespace WhisperTauri

/-- Model of a Rust `PathBuf` that has a file name: parent directory
components, the file stem and the optional extension (the part after the
last dot of the file name, as in `Path::extension`). -/
structure RPath where
  dir : List String
  stem : String
  ext : Option String
deriving DecidableEq, Repr

/-- Rust `Path::extension`. -/
def RPath.extension (p : RPath) : Option String := p.ext

/-- Rust `Path::file_stem` (always present in this model). -/
def RPath.file_stem (p : RPath) : String := p.stem

/-- Rust `PathBuf::set_extension e`: replaces (or adds) the extension;
an empty `e` removes it. -/
def RPath.set_extension (p : RPath) (e : String) : RPath :=
  { p with ext := if e = "" then none else some e }

/-- Index of the last '.' in a list of characters, if any. -/
def lastDotIdx (cs : List Char) : Option Nat :=
  ((List.range cs.length).filter fun i => decide (cs.getD i ' ' = '.')).getLast?

/-- Rust's `file_stem`/`extension` split of a bare file name: the part
before the last dot and the part after it; a dot in first position (a
dotfile) or no dot at all yields no extension. -/
def fileStemExt (name : String) : String × Option String :=
  let cs := name.toList
  match lastDotIdx cs with
  | none => (name, none)
  | some i =>
    if i = 0 then (name, none)
    else (String.mk (cs.take i), some (String.mk (cs.drop (i + 1))))

/-- Joining a directory with a bare file name (`dir.join(name)`), splitting
the name into stem and extension as Rust path inspection would. -/
def joinFileName (dir : List String) (name : String) : RPath :=
  { dir := dir, stem := (fileStemExt name).1, ext := (fileStemExt name).2 }

/-- Rust `str::to_lowercase`, restricted to the ASCII range used by the
extension allow-list. -/
def strToLower (s : String) : String := String.mk (s.data.map Char.toLower)

/-! ## types.rs -/

/-- `types.rs` `OutputFormat`. -/
inductive OutputFormat where
  | Srt
  | Txt
  | Json
  | Vtt
deriving DecidableEq, Repr

/-- `OutputFormat::extension`. -/
def OutputFormat.extension : OutputFormat → String
  | OutputFormat.Srt => "srt"
  | OutputFormat.Txt => "txt"
  | OutputFormat.Json => "json"
  | OutputFormat.Vtt => "vtt"

/-- `types.rs` `FileStatus`. -/
inductive FileStatus where
  | Pending
  | Converting
  | Transcribing
  | Completed
  | Error
deriving DecidableEq, Repr

/-- `types.rs` `TranscriptionSettings`; `output_dir` is a directory,
modelled as its components. -/
structure TranscriptionSettings where
  language : Option String
  model : String
  output_format : OutputFormat
  keep_wav : Bool
  output_dir : Option (List String)
  parallel_jobs : Nat
deriving DecidableEq, Repr

/-- `types.rs` `FileEntry`. -/
structure FileEntry where
  id : String
  path : RPath
  name : String
  size : Nat
  status : FileStatus
  progress : Rat
  error : Option String
  output_path : Option RPath
deriving DecidableEq, Repr

/-- `types.rs` `TranscriptionJob`; `progress` is an `f32` in the source,
modelled as an exact rational. -/
structure TranscriptionJob where
  id : String
  file_path : RPath
  settings : TranscriptionSettings
  status : FileStatus
  progress : Rat
  error : Option String
  output_path : Option RPath
deriving DecidableEq, Repr

/-- A whisper segment as collected in `transcribe_file`: start and end
timestamps in centiseconds (`i64` in the source) and the text.  The end
timestamp is called `stop` because `end` is reserved. -/
structure Segment where
  start : Int
  stop : Int
  text : String
deriving DecidableEq, Repr

/-! ## audio_converter.rs -/

/-- The extension allow-list of `AudioConverter::is_audio_file`. -/
def audioExtensions : List String :=
  ["mp3", "wav", "flac", "m4a", "aac", "ogg", "wma", "opus", "mp4", "mkv",
   "avi", "mov", "wmv", "flv", "webm", "3gp"]

/-- `AudioConverter::is_audio_file`: the path has an extension whose
lowercase form is in the allow-list. -/
def is_audio_file (p : RPath) : Bool :=
  match p.extension with
  | some e => audioExtensions.contains (strToLower e)
  | none => false

/-! ## config.rs -/

/-- The models directory `~/.whisper-tauri/models` of `ConfigManager`. -/
def modelsDir : List String := ["home", ".whisper-tauri", "models"]

/-- `ConfigManager::get_model_path`: `models_dir.join("ggml-{name}.bin")`. -/
def get_model_path (model_name : String) : RPath :=
  { dir := modelsDir, stem := "ggml-" ++ model_name, ext := some "bin" }

/-! ## transcriber.rs: formatter -/

/-- Zero-padded decimal rendering of a nonnegative value, as Rust
`{:0w}` formatting produces for the timestamp components. -/
def padNum (width : Nat) (n : Int) : String :=
  let s := toString n
  if width ≤ s.length then s
  else String.mk (List.replicate (width - s.length) '0') ++ s

/-- One `HH:MM:SS,mmm` (comma variant) or `HH:MM:SS.mmm` (dot variant)
timestamp, from a value in milliseconds, using the truncating `i64`
division and remainder of the source. -/
def formatTimestamp (sep : String) (ms : Int) : String :=
  let hours := Int.tdiv ms 3600000
  let minutes := Int.tdiv (Int.tmod ms 3600000) 60000
  let seconds := Int.tdiv (Int.tmod ms 60000) 1000
  let millis := Int.tmod ms 1000
  padNum 2 hours ++ ":" ++ padNum 2 minutes ++ ":" ++ padNum 2 seconds ++
    sep ++ padNum 3 millis

/-- The SRT rendering of `transcribe_file` (`OutputFormat::Srt` arm):
blocks numbered from 1, timestamps are centiseconds times 10 decomposed
with a comma before the milliseconds. -/
def srtFormat (segments : List Segment) : String :=
  String.join <| segments.enum.map fun seg =>
    toString (seg.1 + 1) ++ "\n" ++
      formatTimestamp "," (seg.2.start * 10) ++ " --> " ++
      formatTimestamp "," (seg.2.stop * 10) ++ "\n" ++ seg.2.text ++ "\n\n"

/-- The VTT rendering of `transcribe_file` (`OutputFormat::Vtt` arm):
a `WEBVTT` header, unnumbered blocks, a dot before the milliseconds. -/
def vttFormat (segments : List Segment) : String :=
  "WEBVTT\n\n" ++ (String.join <| segments.map fun seg =>
    formatTimestamp "." (seg.start * 10) ++ " --> " ++
      formatTimestamp "." (seg.stop * 10) ++ "\n" ++ seg.text ++ "\n\n")

/-- The plain-text rendering of `transcribe_file` (`OutputFormat::Txt`
arm): segment texts joined by newline. -/
def txtFormat (segments : List Segment) : String :=
  String.intercalate "\n" (segments.map Segment.text)

/-- One element of the structured (`OutputFormat::Json`) rendering:
0-based id, start and end in seconds (centiseconds divided by 100; the
source uses `f64`, exact for these values). -/
structure JsonSegment where
  id : Nat
  start : Rat
  stop : Rat
  text : String
deriving DecidableEq, Repr

/-- The segment list of the structured rendering of `transcribe_file`
(`OutputFormat::Json` arm). -/
def jsonSegments (segments : List Segment) : List JsonSegment :=
  segments.enum.map fun seg =>
    { id := seg.1, start := (seg.2.start : Rat) / 100,
      stop := (seg.2.stop : Rat) / 100, text := seg.2.text }

/-- Stand-in for the `serde_json::to_string_pretty` serialization of the
structured rendering; the claims inspect `jsonSegments`, never this
string, and the pipeline treats the produced text opaquely. -/
def jsonStringOf (l : List JsonSegment) : String :=
  String.intercalate ";" (l.map fun s =>
    toString s.id ++ "," ++ toString s.start ++ "," ++ toString s.stop ++
      "," ++ s.text)

/-- The `match settings.output_format` at the end of `transcribe_file`:
rendering the collected segments as the requested output text. -/
def formatOutput (fmt : OutputFormat) (segments : List Segment) : String :=
  match fmt with
  | OutputFormat.Txt => txtFormat segments
  | OutputFormat.Srt => srtFormat segments
  | OutputFormat.Vtt => vttFormat segments
  | OutputFormat.Json => jsonStringOf (jsonSegments segments)

/-! ## transcriber.rs: the adapter -/

/-- `WhisperTranscriber`: it holds only the remembered model path. -/
structure WhisperTranscriber where
  model_path : Option RPath
deriving DecidableEq, Repr

/-- `WhisperTranscriber::new`. -/
def WhisperTranscriber.new : WhisperTranscriber := { model_path := none }

/-- The outcome of the external calls made during one job run, fixed up
front: the ffmpeg conversion result, whether ffmpeg opened (created) the
output file before a failure, whether the model path is representable as
UTF-8 (the only condition `load_model` checks), whether
`WhisperContext::new_with_params` succeeds (the model file exists and is
a valid model image), the progress values the engine reports, the
segments it returns, and the outcome of the final output write. -/
structure JobEnv where
  convertResult : Option String
  convertCreatesWav : Bool
  modelPathUtf8 : Bool
  ctxOk : Bool
  ctxErr : String
  callbackProgress : List Rat
  segments : List Segment
  writeOk : Bool
  writeErr : String
deriving Repr

/-- `WhisperTranscriber::load_model`: converts the path to a string
(failing only when the path is not valid UTF-8, modelled by the `utf8`
flag of the OS-level path) and stores it.  It never touches the
filesystem: a missing or invalid model file is not detected here. -/
def load_model (t : WhisperTranscriber) (p : RPath) (utf8 : Bool) :
    Except String WhisperTranscriber :=
  if utf8 then Except.ok { t with model_path := some p }
  else Except.error "Invalid model path"

/-- `WhisperTranscriber::transcribe_file`, with the external engine
behaviour supplied by `env`: the only `Err` return of the source is a
failing `WhisperContext::new_with_params` (WAV parsing and inference
failures panic rather than return).  On success it renders the segments
in the requested format. -/
def transcribe_file (env : JobEnv) (settings : TranscriptionSettings) :
    Except String String :=
  if env.ctxOk then Except.ok (formatOutput settings.output_format env.segments)
  else Except.error env.ctxErr

/-! ## manager.rs: registry and world -/

/-- The job registry `jobs: HashMap<String, TranscriptionJob>`, as an
association list; keys stay distinct under the operations below (the
iteration order of the real map is arbitrary, which the scheduler
theorems account for by quantifying over it). -/
abbrev Registry := List (String × TranscriptionJob)

/-- `HashMap::get`. -/
def rget? : Registry → String → Option TranscriptionJob
  | [], _ => none
  | (k, v) :: r, i => if k = i then some v else rget? r i

/-- `HashMap::insert` (replace an existing binding, else append). -/
def rinsert : Registry → String → TranscriptionJob → Registry
  | [], k, v => [(k, v)]
  | (k1, v1) :: r, k, v =>
    if k1 = k then (k, v) :: r else (k1, v1) :: rinsert r k v

/-- The keys of a registry. -/
def rkeys (r : Registry) : List String := r.map Prod.fst

/-- The values of a registry (`HashMap::values`, in storage order; the
real map iterates in an arbitrary order). -/
def rvalues (r : Registry) : List TranscriptionJob := r.map Prod.snd

/-- The shared mutable state one `TranscriptionManager` owns, together
with the filesystem it acts on: the job registry, the
`active_tasks` handle map (only the keys matter to the model), and the
set of files existing on disk. -/
structure World where
  jobs : Registry
  activeTasks : List String
  files : List RPath
deriving DecidableEq, Repr

/-- File creation (`ffmpeg` opening its output, `std::fs::write`). -/
def fsInsert (fs : List RPath) (p : RPath) : List RPath :=
  if p ∈ fs then fs else fs ++ [p]

/-- File deletion (`std::fs::remove_file`, best effort). -/
def fsRemove (fs : List RPath) (p : RPath) : List RPath :=
  fs.filter fun q => decide ¬(q = p)

/-! ## manager.rs: the per-job pipeline -/

/-- `TranscriptionManager::get_temp_wav_path`: the input path with its
extension set to `wav`. -/
def get_temp_wav_path (input_path : RPath) : RPath :=
  input_path.set_extension "wav"

/-- `TranscriptionManager::get_output_path`:
`{output_dir or input parent}/{input file stem}` with the extension set
to the one of the output format. -/
def get_output_path (input_path : RPath) (settings : TranscriptionSettings) :
    RPath :=
  let default_dir := input_path.dir
  let output_dir := settings.output_dir.getD default_dir
  (joinFileName output_dir input_path.file_stem).set_extension
    settings.output_format.extension

/-- The fixed message `cancel_job` writes. -/
def cancelMsg : String := "Cancelled by user"

/-- One observable step of `process_single_job` against the shared state:
a `update_job_progress` call publishing a job snapshot, the body of the
engine progress callback (spawned from inside the inference call), or a
filesystem effect. -/
inductive PipelineEvent where
  | publish (job : TranscriptionJob)
  | callback (id : String) (p : Rat)
  | createWav (p : RPath)
  | removeWav (p : RPath)
  | writeOutput (p : RPath)
deriving DecidableEq, Repr

/-- The sequence of events `process_single_job` performs for one job,
given the external outcomes `env`, translated arm by arm from the
source: publish `Converting`; convert (early `Error` return on failure,
before any cleanup); publish `Transcribing` at progress 30; load the
model (early `Error` return, before any cleanup); run the engine, whose
progress callbacks fire only when a context was created; then either
write the output and publish `Completed` at progress 100, or publish the
respective `Error` — with the WAV cleanup (unless `keep_wav`) squeezed
between the write attempt and the final publish. -/
def jobEvents (env : JobEnv) (job0 : TranscriptionJob) : List PipelineEvent :=
  let wav_path := get_temp_wav_path job0.file_path
  let j1 : TranscriptionJob := { job0 with status := FileStatus.Converting }
  match env.convertResult with
  | some e =>
    PipelineEvent.publish j1 ::
      (if env.convertCreatesWav then [PipelineEvent.createWav wav_path] else []) ++
        [PipelineEvent.publish
          { j1 with status := FileStatus.Error,
                    error := some ("Conversion failed: " ++ e) }]
  | none =>
    let j2 : TranscriptionJob :=
      { j1 with status := FileStatus.Transcribing, progress := 30 }
    let head := [PipelineEvent.publish j1, PipelineEvent.createWav wav_path,
      PipelineEvent.publish j2]
    if env.modelPathUtf8 = false then
      head ++ [PipelineEvent.publish
        { j2 with status := FileStatus.Error,
                  error := some ("Failed to load model: Invalid model path") }]
    else
      let cleanup :=
        if job0.settings.keep_wav then [] else [PipelineEvent.removeWav wav_path]
      match transcribe_file env job0.settings with
      | Except.error e =>
        head ++ cleanup ++ [PipelineEvent.publish
          { j2 with status := FileStatus.Error,
                    error := some ("Transcription failed: " ++ e) }]
      | Except.ok _text =>
        let cbs := env.callbackProgress.map fun p =>
          PipelineEvent.callback job0.id p
        let output_path := get_output_path job0.file_path job0.settings
        if env.writeOk then
          head ++ cbs ++ [PipelineEvent.writeOutput output_path] ++ cleanup ++
            [PipelineEvent.publish
              { j2 with status := FileStatus.Completed, progress := 100,
                        output_path := some output_path }]
        else
          head ++ cbs ++ cleanup ++ [PipelineEvent.publish
            { j2 with status := FileStatus.Error,
                      error := some ("Failed to save output: " ++ env.writeErr) }]

/-- Effect of one pipeline event on the shared state: publishing inserts
the snapshot under the job id; the callback body mutates the registry
entry in place (progress `30 + p * 0.7`, status `Transcribing`) when the
entry exists; the filesystem events touch only the file set. -/
def applyEvent (w : World) (e : PipelineEvent) : World :=
  match e with
  | PipelineEvent.publish j => { w with jobs := rinsert w.jobs j.id j }
  | PipelineEvent.callback id p =>
    { w with jobs :=
        match rget? w.jobs id with
        | some j =>
          rinsert w.jobs id
            { j with progress := 30 + p * (7 / 10),
                     status := FileStatus.Transcribing }
        | none => w.jobs }
  | PipelineEvent.createWav p => { w with files := fsInsert w.files p }
  | PipelineEvent.removeWav p => { w with files := fsRemove w.files p }
  | PipelineEvent.writeOutput p => { w with files := fsInsert w.files p }

/-- Running a sequence of pipeline events. -/
def runEvents (w : World) (evs : List PipelineEvent) : World :=
  evs.foldl applyEvent w

/-! ## manager.rs: manager operations -/

/-- The job built for one file in `start_transcription`: fresh `Pending`
state, progress 0, owning its copy of the settings. -/
def mkJob (file : FileEntry) (settings : TranscriptionSettings) :
    TranscriptionJob :=
  { id := file.id, file_path := file.path, settings := settings,
    status := FileStatus.Pending, progress := 0, error := none,
    output_path := none }

/-- `TranscriptionManager::start_transcription` up to the dispatch call:
fail eagerly when the configured model file does not exist, otherwise
insert one `Pending` job per file into the registry. -/
def start_transcription (w : World) (files : List FileEntry)
    (settings : TranscriptionSettings) : Except String World :=
  let model_path := get_model_path settings.model
  if model_path ∈ w.files then
    Except.ok
      { w with jobs := files.foldl (fun r f => rinsert r f.id (mkJob f settings)) w.jobs }
  else Except.error ("Model not downloaded: " ++ settings.model)

/-- Rust `slice::chunks n` (defined for positive `n`; the source panics
at 0), via a fuel argument that the wrapper sets to the list length. -/
def chunksGo (n : Nat) : List α → Nat → List (List α)
  | [], _ => []
  | _ :: _, 0 => []
  | l, fuel + 1 => l.take n :: chunksGo n (l.drop n) fuel

/-- `pending_jobs.chunks(max_parallel)`. -/
def chunks (n : Nat) (l : List α) : List (List α) := chunksGo n l l.length

/-- `TranscriptionManager::process_jobs`, sequential reference run: the
jobs of the registry in iteration order `order` are filtered to the
`Pending` ones, chunked by `max_parallel`, and each chunk's pipelines
run to completion before the next chunk starts.  Within a chunk the real
tasks interleave; the scheduling theorems quantify over the chunk traces
instead of using this serialized fold. -/
def process_jobs (envOf : String → JobEnv) (max_parallel : Nat)
    (order : List TranscriptionJob) (w : World) : World :=
  let pending := order.filter fun j => decide (j.status = FileStatus.Pending)
  (chunks max_parallel pending).foldl
    (fun wc c => runEvents wc (c.flatMap fun j => jobEvents (envOf j.id) j)) w

/-- `start_transcription` followed by the dispatch (`process_jobs`): on
the eager model check failing, the error propagates and nothing else
runs. -/
def start_and_process (w : World) (files : List FileEntry)
    (settings : TranscriptionSettings) (envOf : String → JobEnv)
    (order : List TranscriptionJob) : World :=
  match start_transcription w files settings with
  | Except.error _ => w
  | Except.ok w2 => process_jobs envOf settings.parallel_jobs order w2

/-- `TranscriptionManager::get_job_status`. -/
def get_job_status (w : World) (job_id : String) : Option TranscriptionJob :=
  rget? w.jobs job_id

/-- `TranscriptionManager::get_all_jobs`. -/
def get_all_jobs (w : World) : List TranscriptionJob := rvalues w.jobs

/-- `TranscriptionManager::cancel_job`: abort and drop the stored task
handle if one exists (none is ever stored), then force the registry
entry, whatever its state, to `Error` with the fixed message.  Progress
and output path are left as they were. -/
def cancel_job (w : World) (job_id : String) : World :=
  let tasks := w.activeTasks.filter fun t => decide ¬(t = job_id)
  let jobs :=
    match rget? w.jobs job_id with
    | some j =>
      rinsert w.jobs job_id
        { j with status := FileStatus.Error, error := some cancelMsg }
    | none => w.jobs
  { w with activeTasks := tasks, jobs := jobs }

/-- `TranscriptionManager::clear_completed_jobs`: retain exactly the
jobs whose status is not `Completed`. -/
def clear_completed_jobs (w : World) : World :=
  { w with jobs := w.jobs.filter fun kv =>
      match kv.2.status with
      | FileStatus.Completed => false
      | _ => true }

/-- The operations that can act on a manager's shared state over its
lifetime, for stating invariants over arbitrary operation sequences. -/
inductive ManagerOp where
  | start (files : List FileEntry) (settings : TranscriptionSettings)
  | step (e : PipelineEvent)
  | cancel (id : String)
  | clearCompleted

/-- Effect of one manager operation (an erroring `start_transcription`
leaves the state as it was). -/
def applyOp (w : World) (op : ManagerOp) : World :=
  match op with
  | ManagerOp.start files settings =>
    match start_transcription w files settings with
    | Except.ok w2 => w2
    | Except.error _ => w
  | ManagerOp.step e => applyEvent w e
  | ManagerOp.cancel id => cancel_job w id
  | ManagerOp.clearCompleted => clear_completed_jobs w

/-! ## lib.rs: the command layer -/

/-- The Tauri-managed application state: the `TranscriptionManager`
created at setup and shared with every command. -/
structure AppState where
  managed : World
deriving Repr

/-- The `start_transcription` command of `lib.rs`: it builds a separate
`TranscriptionManager` instance (empty registry, empty task map, the
same disk) and runs the batch on that instance in the background; the
managed state is returned untouched. -/
def start_transcription_cmd (st : AppState) (files : List FileEntry)
    (settings : TranscriptionSettings) : AppState × Except String World :=
  (st,
    start_transcription
      { jobs := [], activeTasks := [], files := st.managed.files }
      files settings)

/-- The `get_job_status` command of `lib.rs`: queries the managed
manager. -/
def get_job_status_cmd (st : AppState) (job_id : String) :
    Option TranscriptionJob :=
  get_job_status st.managed job_id

/-- The `get_all_jobs` command of `lib.rs`: queries the managed
manager. -/
def get_all_jobs_cmd (st : AppState) : List TranscriptionJob :=
  get_all_jobs st.managed

/-! ## Status classification -/

/-- Terminal statuses: `Completed` and `Error`. -/
def isTerminal : FileStatus → Bool
  | FileStatus.Completed => true
  | FileStatus.Error => true
  | _ => false

/-- Statuses of a job whose pipeline is currently running a stage. -/
def isActive : FileStatus → Bool
  | FileStatus.Converting => true
  | FileStatus.Transcribing => true
  | _ => false

/-- Number of registry entries in an active stage. -/
def activeCount (r : Registry) : Nat :=
  (r.filter fun kv => isActive kv.2.status).length

/-- The registry entry a pipeline event addresses, if any. -/
def evId : PipelineEvent → Option String
  | PipelineEvent.publish j => some j.id
  | PipelineEvent.callback id _ => some id
  | _ => none

/-- The subsequence of a trace made of the events addressing `id`. -/
def regProj (id : String) (tr : List PipelineEvent) : List PipelineEvent :=
  tr.filter fun e => decide (evId e = some id)

/-- Effect of one event on a single registry entry (the entry the event
addresses): publishing replaces it, the callback body mutates it when it
exists, filesystem events leave it alone. -/
def entryStep : Option TranscriptionJob → PipelineEvent → Option TranscriptionJob
  | _, PipelineEvent.publish j => some j
  | some j, PipelineEvent.callback _ p =>
    some { j with progress := 30 + p * (7 / 10), status := FileStatus.Transcribing }
  | o, PipelineEvent.callback _ _ => o
  | o, _ => o

/-- Folding a trace over a single registry entry. -/
def entryFold (o : Option TranscriptionJob) (tr : List PipelineEvent) :
    Option TranscriptionJob :=
  tr.foldl entryStep o

/-! ## Registry lemmas -/

theorem rget?_rinsert (r : Registry) (k i : String) (v : TranscriptionJob) :
    rget? (rinsert r k v) i = if k = i then some v else rget? r i := by
  induction r with
  | nil => simp [rinsert, rget?]
  | cons kv r ih =>
    obtain ⟨k1, v1⟩ := kv
    by_cases h1 : k1 = k
    · subst h1
      by_cases h2 : k1 = i <;> simp [rinsert, rget?, h2]
    · by_cases h2 : k1 = i
      · subst h2
        have hk : ¬ k = k1 := fun h => h1 h.symm
        simp [rinsert, rget?, h1, hk]
      · simp [rinsert, rget?, h1, h2, ih]

theorem mem_rkeys_rinsert (r : Registry) (k i : String) (v : TranscriptionJob) :
    i ∈ rkeys (rinsert r k v) ↔ i ∈ rkeys r ∨ i = k := by
  induction r with
  | nil => simp [rinsert, rkeys]
  | cons kv r ih =>
    obtain ⟨k1, v1⟩ := kv
    simp only [rkeys, List.map_cons, List.mem_cons] at ih ⊢
    by_cases h1 : k1 = k
    · subst h1
      have hr : rinsert ((k1, v1) :: r) k1 v = (k1, v) :: r := by
        simp [rinsert]
      rw [hr]
      simp only [List.map_cons, List.mem_cons]
      tauto
    · have hr : rinsert ((k1, v1) :: r) k v = (k1, v1) :: rinsert r k v := by
        simp [rinsert, h1]
      rw [hr]
      simp only [List.map_cons, List.mem_cons]
      tauto

theorem nodup_rkeys_rinsert (r : Registry) (k : String) (v : TranscriptionJob)
    (h : (rkeys r).Nodup) : (rkeys (rinsert r k v)).Nodup := by
  induction r with
  | nil => simp [rinsert, rkeys]
  | cons kv r ih =>
    obtain ⟨k1, v1⟩ := kv
    simp only [rkeys, List.map_cons, List.nodup_cons] at h
    by_cases h1 : k1 = k
    · subst h1
      simpa [rinsert, rkeys, List.nodup_cons] using h
    · have hnr := ih h.2
      simp only [rinsert, if_neg h1, rkeys, List.map_cons, List.nodup_cons]
      refine ⟨fun hm => ?_, hnr⟩
      rcases (mem_rkeys_rinsert r k k1 v).mp hm with hm2 | hm2
      · exact h.1 hm2
      · exact h1 hm2

theorem rget?_eq_none_of_not_mem (r : Registry) (i : String)
    (h : i ∉ rkeys r) : rget? r i = none := by
  induction r with
  | nil => rfl
  | cons kv r ih =>
    obtain ⟨k1, v1⟩ := kv
    simp only [rkeys, List.map_cons, List.mem_cons, not_or] at h
    have : ¬ k1 = i := fun he => h.1 he.symm
    simp [rget?, this, ih h.2]

theorem mem_of_rget? (r : Registry) (i : String) (v : TranscriptionJob)
    (h : rget? r i = some v) : (i, v) ∈ r := by
  induction r with
  | nil => simp [rget?] at h
  | cons kv r ih =>
    obtain ⟨k1, v1⟩ := kv
    simp only [rget?] at h
    split at h
    · next heq =>
      cases h
      subst heq
      exact List.mem_cons_self _ _
    · next hne =>
      exact List.mem_cons_of_mem _ (ih h)

theorem rget?_of_mem_nodup (r : Registry) (i : String) (v : TranscriptionJob)
    (hnd : (rkeys r).Nodup) (h : (i, v) ∈ r) : rget? r i = some v := by
  induction r with
  | nil => simp at h
  | cons kv r ih =>
    obtain ⟨k1, v1⟩ := kv
    simp only [rkeys, List.map_cons, List.nodup_cons] at hnd
    rcases List.mem_cons.mp h with h | h
    · cases h
      simp [rget?]
    · have hne : ¬ k1 = i := by
        intro he
        subst he
        exact hnd.1 (List.mem_map_of_mem Prod.fst h)
      simp [rget?, hne, ih hnd.2 h]

theorem rget?_filter (r : Registry) (P : String × TranscriptionJob → Bool)
    (i : String) (hnd : (rkeys r).Nodup) :
    rget? (r.filter P) i =
      (rget? r i).bind fun v => if P (i, v) then some v else none := by
  induction r with
  | nil => simp [rget?]
  | cons kv r ih =>
    obtain ⟨k1, v1⟩ := kv
    simp only [rkeys, List.map_cons, List.nodup_cons] at hnd
    by_cases h1 : k1 = i
    · subst h1
      by_cases hp : P (k1, v1)
      · simp [List.filter_cons, hp, rget?]
      · have : rget? (r.filter P) k1 = none := by
          apply rget?_eq_none_of_not_mem
          intro hm
          have hsub : (r.filter P).map Prod.fst ⊆ r.map Prod.fst :=
            fun a ha => by
              rcases List.mem_map.mp ha with ⟨x, hx, hax⟩
              exact List.mem_map.mpr ⟨x, List.mem_of_mem_filter hx, hax⟩
          exact hnd.1 (hsub hm)
        simp [List.filter_cons, hp, rget?, this]
    · by_cases hp : P (k1, v1) <;>
        simp [List.filter_cons, hp, rget?, h1, ih hnd.2]

/-! ## Event lemmas -/

theorem entryFold_append (o : Option TranscriptionJob)
    (l1 l2 : List PipelineEvent) :
    entryFold o (l1 ++ l2) = entryFold (entryFold o l1) l2 :=
  List.foldl_append _ _ _ _

theorem entryFold_cons (o : Option TranscriptionJob) (e : PipelineEvent)
    (l : List PipelineEvent) :
    entryFold o (e :: l) = entryFold (entryStep o e) l := rfl

theorem entryStep_publish (o : Option TranscriptionJob) (j : TranscriptionJob) :
    entryStep o (PipelineEvent.publish j) = some j := by
  cases o <;> rfl

theorem entryFold_publish_last (o : Option TranscriptionJob)
    (l : List PipelineEvent) (j : TranscriptionJob) :
    entryFold o (l ++ [PipelineEvent.publish j]) = some j := by
  rw [entryFold_append]
  cases entryFold o l <;> rfl

theorem applyEvent_files_of_reg (w : World) (e : PipelineEvent)
    (id : String) (h : evId e = some id) :
    (applyEvent w e).files = w.files := by
  cases e <;> simp_all [evId, applyEvent]

theorem applyEvent_jobs_of_fs (w : World) (e : PipelineEvent)
    (h : evId e = none) : (applyEvent w e).jobs = w.jobs := by
  cases e <;> simp_all [evId, applyEvent]

theorem applyEvent_activeTasks (w : World) (e : PipelineEvent) :
    (applyEvent w e).activeTasks = w.activeTasks := by
  cases e with
  | callback id p =>
    simp only [applyEvent]
  | _ => rfl

theorem rget?_applyEvent_hit (w : World) (e : PipelineEvent) (i : String)
    (hid : evId e = some i) :
    rget? (applyEvent w e).jobs i = entryStep (rget? w.jobs i) e := by
  cases e with
  | publish j =>
    have hji : j.id = i := by simpa [evId] using hid
    rw [entryStep_publish]
    simp [applyEvent, rget?_rinsert, hji]
  | callback cid p =>
    have hci : cid = i := by simpa [evId] using hid
    obtain rfl := hci
    cases hv : rget? w.jobs cid with
    | none => simp [applyEvent, hv, entryStep]
    | some j => simp [applyEvent, hv, rget?_rinsert, entryStep]
  | createWav p => simp [evId] at hid
  | removeWav p => simp [evId] at hid
  | writeOutput p => simp [evId] at hid

theorem rget?_applyEvent_miss (w : World) (e : PipelineEvent) (i : String)
    (hid : ¬ evId e = some i) :
    rget? (applyEvent w e).jobs i = rget? w.jobs i := by
  cases e with
  | publish j =>
    have hne : ¬ j.id = i := fun hji => hid (by simp [evId, hji])
    simp [applyEvent, rget?_rinsert, hne]
  | callback cid p =>
    have hne : ¬ cid = i := fun hji => hid (by simp [evId, hji])
    cases hv : rget? w.jobs cid with
    | none => simp [applyEvent, hv]
    | some j => simp [applyEvent, hv, rget?_rinsert, hne]
  | createWav p => rfl
  | removeWav p => rfl
  | writeOutput p => rfl

theorem rget?_runEvents (tr : List PipelineEvent) (w : World) (i : String) :
    rget? (runEvents w tr).jobs i = entryFold (rget? w.jobs i) (regProj i tr) := by
  induction tr generalizing w with
  | nil => rfl
  | cons e tr ih =>
    show rget? (runEvents (applyEvent w e) tr).jobs i = _
    rw [ih]
    by_cases hid : evId e = some i
    · rw [show regProj i (e :: tr) = e :: regProj i tr from by
        simp [regProj, List.filter_cons, hid]]
      rw [entryFold_cons]
      rw [rget?_applyEvent_hit w e i hid]
    · rw [show regProj i (e :: tr) = regProj i tr from by
        simp [regProj, List.filter_cons, hid]]
      rw [rget?_applyEvent_miss w e i hid]

theorem nodup_rkeys_applyEvent (w : World) (e : PipelineEvent)
    (h : (rkeys w.jobs).Nodup) : (rkeys (applyEvent w e).jobs).Nodup := by
  cases e with
  | publish j => exact nodup_rkeys_rinsert _ _ _ h
  | callback id p =>
    cases hv : rget? w.jobs id with
    | none => simpa [applyEvent, hv] using h
    | some j =>
      simp only [applyEvent, hv]
      exact nodup_rkeys_rinsert _ _ _ h
  | createWav p => exact h
  | removeWav p => exact h
  | writeOutput p => exact h

theorem nodup_rkeys_runEvents (tr : List PipelineEvent) (w : World)
    (h : (rkeys w.jobs).Nodup) : (rkeys (runEvents w tr).jobs).Nodup := by
  induction tr generalizing w with
  | nil => exact h
  | cons e tr ih => exact ih _ (nodup_rkeys_applyEvent w e h)

theorem activeCount_le_of_keys (r : Registry) (ids : List String)
    (hk : (rkeys r).Nodup)
    (h : ∀ i v, rget? r i = some v → isActive v.status = true → i ∈ ids) :
    activeCount r ≤ ids.length := by
  have hsub : (r.filter fun kv => isActive kv.2.status).Sublist r :=
    List.filter_sublist r
  have hmap : ((r.filter fun kv => isActive kv.2.status).map Prod.fst).Sublist
      (rkeys r) := hsub.map Prod.fst
  have hnd2 : ((r.filter fun kv => isActive kv.2.status).map Prod.fst).Nodup :=
    hmap.nodup hk
  have hss : ((r.filter fun kv => isActive kv.2.status).map Prod.fst) ⊆ ids := by
    intro i hi
    rcases List.mem_map.mp hi with ⟨⟨k, v⟩, hkv, hfst⟩
    subst hfst
    have hmem : (k, v) ∈ r := List.mem_of_mem_filter hkv
    have hact : isActive v.status = true := by
      have := List.of_mem_filter hkv
      simpa using this
    exact h k v (rget?_of_mem_nodup r k v hk hmem) hact
  have := (List.Nodup.subperm hnd2 hss).length_le
  simpa [activeCount] using this

/-! ## Shape of a job's event trace -/

theorem jobEvents_shape (env : JobEnv) (j : TranscriptionJob) :
    ∃ l jT, jobEvents env j = l ++ [PipelineEvent.publish jT] ∧
      isTerminal jT.status = true ∧ jT.id = j.id := by
  cases hcr : env.convertResult with
  | some e =>
    refine ⟨PipelineEvent.publish { j with status := FileStatus.Converting } ::
      (if env.convertCreatesWav then
        [PipelineEvent.createWav (get_temp_wav_path j.file_path)] else []),
      { j with status := FileStatus.Error,
               error := some ("Conversion failed: " ++ e) }, ?_, rfl, rfl⟩
    simp [jobEvents, hcr]
  | none =>
    cases hu : env.modelPathUtf8 with
    | false =>
      refine ⟨[PipelineEvent.publish { j with status := FileStatus.Converting },
        PipelineEvent.createWav (get_temp_wav_path j.file_path),
        PipelineEvent.publish
          { j with status := FileStatus.Transcribing, progress := 30 }],
        { j with status := FileStatus.Error, progress := 30,
                 error := some ("Failed to load model: Invalid model path") },
        ?_, rfl, rfl⟩
      simp [jobEvents, hcr, hu]
    | true =>
      cases hctx : env.ctxOk with
      | false =>
        refine ⟨[PipelineEvent.publish { j with status := FileStatus.Converting },
          PipelineEvent.createWav (get_temp_wav_path j.file_path),
          PipelineEvent.publish
            { j with status := FileStatus.Transcribing, progress := 30 }] ++
          (if j.settings.keep_wav then [] else
            [PipelineEvent.removeWav (get_temp_wav_path j.file_path)]),
          { j with status := FileStatus.Error, progress := 30,
                   error := some ("Transcription failed: " ++ env.ctxErr) },
          ?_, rfl, rfl⟩
        simp [jobEvents, hcr, hu, transcribe_file, hctx]
      | true =>
        cases hw : env.writeOk with
        | false =>
          refine ⟨[PipelineEvent.publish { j with status := FileStatus.Converting },
            PipelineEvent.createWav (get_temp_wav_path j.file_path),
            PipelineEvent.publish
              { j with status := FileStatus.Transcribing, progress := 30 }] ++
            (env.callbackProgress.map fun p => PipelineEvent.callback j.id p) ++
            (if j.settings.keep_wav then [] else
              [PipelineEvent.removeWav (get_temp_wav_path j.file_path)]),
            { j with status := FileStatus.Error, progress := 30,
                     error := some ("Failed to save output: " ++ env.writeErr) },
            ?_, rfl, rfl⟩
          simp [jobEvents, hcr, hu, transcribe_file, hctx, hw]
        | true =>
          refine ⟨[PipelineEvent.publish { j with status := FileStatus.Converting },
            PipelineEvent.createWav (get_temp_wav_path j.file_path),
            PipelineEvent.publish
              { j with status := FileStatus.Transcribing, progress := 30 }] ++
            (env.callbackProgress.map fun p => PipelineEvent.callback j.id p) ++
            [PipelineEvent.writeOutput (get_output_path j.file_path j.settings)] ++
            (if j.settings.keep_wav then [] else
              [PipelineEvent.removeWav (get_temp_wav_path j.file_path)]),
            { j with status := FileStatus.Completed, progress := 100,
                     output_path := some (get_output_path j.file_path j.settings) },
            ?_, rfl, rfl⟩
          simp [jobEvents, hcr, hu, transcribe_file, hctx, hw]

theorem jobEvents_ids (env : JobEnv) (j : TranscriptionJob) :
    ∀ e ∈ jobEvents env j, ∀ i, evId e = some i → i = j.id := by
  intro e he i hei
  cases hcr : env.convertResult with
  | some er =>
    simp only [jobEvents, hcr] at he
    cases e <;> simp_all [evId]
    rcases he with rfl | rfl <;> exact hei.symm
  | none =>
    simp only [jobEvents, hcr] at he
    cases hu : env.modelPathUtf8 with
    | false =>
      simp only [hu, if_pos rfl, Bool.false_eq_true] at he
      cases e <;> simp_all [evId]
      rcases he with rfl | rfl | rfl <;> exact hei.symm
    | true =>
      simp only [hu, Bool.true_eq_false, if_false] at he
      cases hctx : env.ctxOk with
      | false =>
        simp only [transcribe_file, hctx, Bool.false_eq_true, if_false] at he
        cases e <;> simp_all [evId]
        rcases he with rfl | rfl | rfl <;> exact hei.symm
      | true =>
        simp only [transcribe_file, hctx, if_pos rfl] at he
        cases hw : env.writeOk with
        | false =>
          simp only [hw, Bool.false_eq_true, if_false] at he
          cases e <;> simp_all [evId]
          rcases he with rfl | rfl | rfl <;> exact hei.symm
        | true =>
          simp only [hw, if_pos rfl] at he
          cases e <;> simp_all [evId]
          rcases he with rfl | rfl | rfl <;> exact hei.symm
/-! ## Chunking lemmas -/

theorem chunksGo_join {α : Type} (n : Nat) (hn : 0 < n) :
    ∀ (fuel : Nat) (l : List α), l.length ≤ fuel →
      (chunksGo n l fuel).flatten = l := by
  intro fuel
  induction fuel with
  | zero =>
    intro l hl
    have : l = [] := List.eq_nil_of_length_eq_zero (Nat.le_zero.mp hl)
    subst this
    rfl
  | succ fuel ih =>
    intro l hl
    cases l with
    | nil => rfl
    | cons a as =>
      show (List.take n (a :: as) :: chunksGo n (List.drop n (a :: as)) fuel).flatten
        = a :: as
      have hdl : (List.drop n (a :: as)).length ≤ fuel := by
        rw [List.length_drop]
        simp only [List.length_cons] at hl ⊢
        omega
      simp only [List.flatten_cons]
      rw [ih _ hdl]
      exact List.take_append_drop n (a :: as)

theorem chunks_flatten {α : Type} (n : Nat) (hn : 0 < n) (l : List α) :
    (chunks n l).flatten = l :=
  chunksGo_join n hn l.length l (le_refl _)

theorem chunksGo_mem {α : Type} (n : Nat) (hn : 0 < n) :
    ∀ (fuel : Nat) (l : List α) (c : List α), c ∈ chunksGo n l fuel →
      c.length ≤ n ∧ c ≠ [] := by
  intro fuel
  induction fuel with
  | zero =>
    intro l c hc
    cases l <;> simp [chunksGo] at hc
  | succ fuel ih =>
    intro l c hc
    cases l with
    | nil => simp [chunksGo] at hc
    | cons a as =>
      rcases List.mem_cons.mp hc with rfl | hc2
      · refine ⟨List.length_take_le n (a :: as), ?_⟩
        intro hnil
        rcases List.take_eq_nil_iff.mp hnil with h | h
        · exact absurd h (by omega)
        · simp at h
      · exact ih _ c hc2

theorem chunks_mem {α : Type} (n : Nat) (hn : 0 < n) (l : List α)
    (c : List α) (hc : c ∈ chunks n l) : c.length ≤ n ∧ c ≠ [] :=
  chunksGo_mem n hn l.length l c hc

theorem chunks_map_length_five {α : Type} (l : List α) (h : l.length = 5) :
    (chunks 2 l).map List.length = [2, 2, 1] := by
  rcases l with _ | ⟨a, _ | ⟨b, _ | ⟨c, _ | ⟨d, _ | ⟨e, _ | ⟨f, t⟩⟩⟩⟩⟩⟩ <;>
    simp only [List.length_cons, List.length_nil] at h <;>
    first
      | rfl
      | omega

/-! ## Chunk traces: interleavings of one wave of concurrent jobs -/

/-- What it means for an event trace `tr` to be one interleaved execution
of the jobs of a chunk `c`: every job's own registry events occur in `tr`
exactly as its pipeline emits them, and no event of `tr` addresses a
registry entry outside the chunk. -/
def ChunkTrace (envOf : String → JobEnv) (c : List TranscriptionJob)
    (tr : List PipelineEvent) : Prop :=
  (∀ j ∈ c, regProj j.id tr = regProj j.id (jobEvents (envOf j.id) j)) ∧
  (∀ e ∈ tr, ∀ i, evId e = some i → i ∈ c.map TranscriptionJob.id)

/-- Running chunk traces one wave after another. -/
def runChunks (w : World)
    (ctrs : List (List TranscriptionJob × List PipelineEvent)) : World :=
  ctrs.foldl (fun wc ct => runEvents wc ct.2) w

theorem not_active_of_terminal (s : FileStatus) (h : isTerminal s = true) :
    isActive s = false := by
  cases s <;> simp_all [isTerminal, isActive]

theorem regProj_eq_nil (i : String) (tr : List PipelineEvent)
    (h : ∀ e ∈ tr, ¬ evId e = some i) : regProj i tr = [] := by
  simp only [regProj, List.filter_eq_nil_iff]
  intro e he
  simpa using h e he

theorem regProj_jobEvents_last (env : JobEnv) (j : TranscriptionJob) :
    ∃ l jT, regProj j.id (jobEvents env j) = l ++ [PipelineEvent.publish jT] ∧
      isTerminal jT.status = true ∧ jT.id = j.id := by
  obtain ⟨l, jT, hsh, hterm, hid⟩ := jobEvents_shape env j
  refine ⟨regProj j.id l, jT, ?_, hterm, hid⟩
  rw [hsh]
  show List.filter _ (l ++ [PipelineEvent.publish jT]) = _
  rw [List.filter_append]
  congr 1
  simp [evId, hid]

theorem runEvents_entry_terminal (envOf : String → JobEnv)
    (c : List TranscriptionJob) (tr : List PipelineEvent)
    (hct : ChunkTrace envOf c tr) (w : World) (j : TranscriptionJob)
    (hj : j ∈ c) :
    ∃ jT, rget? (runEvents w tr).jobs j.id = some jT ∧
      isTerminal jT.status = true := by
  obtain ⟨l, jT, hproj, hterm, hid⟩ := regProj_jobEvents_last (envOf j.id) j
  refine ⟨jT, ?_, hterm⟩
  rw [rget?_runEvents, hct.1 j hj, hproj, entryFold_publish_last]

theorem runEvents_entry_unchanged (envOf : String → JobEnv)
    (c : List TranscriptionJob) (tr : List PipelineEvent)
    (hct : ChunkTrace envOf c tr) (w : World) (i : String)
    (hi : i ∉ c.map TranscriptionJob.id) (pre : List PipelineEvent)
    (hpre : ∀ e ∈ pre, e ∈ tr) :
    rget? (runEvents w pre).jobs i = rget? w.jobs i := by
  rw [rget?_runEvents, regProj_eq_nil]
  · rfl
  · intro e he hei
    exact hi (hct.2 e (hpre e he) i hei)

theorem runChunks_nil (w : World) : runChunks w [] = w := rfl

theorem runChunks_cons (w : World)
    (ct : List TranscriptionJob × List PipelineEvent)
    (ctrs : List (List TranscriptionJob × List PipelineEvent)) :
    runChunks w (ct :: ctrs) = runChunks (runEvents w ct.2) ctrs := rfl

/-- The scheduler run, one wave after another: after `k` waves every job
of an earlier wave is terminal in the registry while every job of a
later wave is still the untouched `Pending` entry; entries outside the
batch are never written; and at every point inside a wave at most
`maxPar` registry entries are in an active stage. -/
theorem sched_run (envOf : String → JobEnv) (maxPar : Nat) :
    ∀ (ctrs : List (List TranscriptionJob × List PipelineEvent)) (w : World),
      (∀ ct ∈ ctrs, ChunkTrace envOf ct.1 ct.2) →
      (∀ ct ∈ ctrs, ∀ j ∈ ct.1,
        rget? w.jobs j.id = some j ∧ j.status = FileStatus.Pending) →
      ((ctrs.map fun ct => ct.1.map TranscriptionJob.id).flatten).Nodup →
      (rkeys w.jobs).Nodup →
      (∀ i v, rget? w.jobs i = some v → isActive v.status = false) →
      (∀ ct ∈ ctrs, ct.1.length ≤ maxPar) →
      (∀ k, k ≤ ctrs.length →
        (∀ ct ∈ ctrs.take k, ∀ j ∈ ct.1,
          ∃ jT, rget? (runChunks w (ctrs.take k)).jobs j.id = some jT ∧
            isTerminal jT.status = true) ∧
        (∀ ct ∈ ctrs.drop k, ∀ j ∈ ct.1,
          rget? (runChunks w (ctrs.take k)).jobs j.id = some j ∧
            j.status = FileStatus.Pending)) ∧
      (∀ k, k ≤ ctrs.length → ∀ i,
        (∀ ct ∈ ctrs.take k, i ∉ ct.1.map TranscriptionJob.id) →
        rget? (runChunks w (ctrs.take k)).jobs i = rget? w.jobs i) ∧
      (∀ k, ∀ (hk : k < ctrs.length), ∀ pre,
        pre <+: (ctrs.get ⟨k, hk⟩).2 →
        activeCount (runEvents (runChunks w (ctrs.take k)) pre).jobs ≤ maxPar) := by
  intro ctrs
  induction ctrs with
  | nil =>
    intro w hct hpend hnd hkeys hinact hcap
    refine ⟨?_, ?_, ?_⟩
    · intro k hk
      have hk0 : k = 0 := Nat.le_zero.mp hk
      subst hk0
      exact ⟨by simp, by simp⟩
    · intro k hk i hi
      have hk0 : k = 0 := Nat.le_zero.mp hk
      subst hk0
      rfl
    · intro k hk
      exact absurd hk (by simp)
  | cons ct ctrs ih =>
    intro w hct hpend hnd hkeys hinact hcap
    have hctHead : ChunkTrace envOf ct.1 ct.2 := hct ct (List.mem_cons_self ct ctrs)
    have hndApp :
        ((ct.1.map TranscriptionJob.id) ++
          ((ctrs.map fun ct2 => ct2.1.map TranscriptionJob.id).flatten)).Nodup := by
      simpa using hnd
    have hdisj : ∀ a ∈ ct.1.map TranscriptionJob.id,
        a ∉ (ctrs.map fun ct2 => ct2.1.map TranscriptionJob.id).flatten :=
      fun a ha => (List.nodup_append.mp hndApp).2.2 ha
    have hmemRest : ∀ ct2 ∈ ctrs, ∀ j ∈ ct2.1,
        j.id ∈ (ctrs.map fun ct2 => ct2.1.map TranscriptionJob.id).flatten := by
      intro ct2 h2 j hj
      exact List.mem_flatten.mpr
        ⟨ct2.1.map TranscriptionJob.id,
          List.mem_map_of_mem _ h2, List.mem_map_of_mem _ hj⟩
    -- facts about the world after the first wave
    have hF1 : ∀ i, i ∉ ct.1.map TranscriptionJob.id →
        rget? (runEvents w ct.2).jobs i = rget? w.jobs i := by
      intro i hi
      exact runEvents_entry_unchanged envOf ct.1 ct.2 hctHead w i hi ct.2
        (fun e he => he)
    have hF2 : ∀ j ∈ ct.1,
        ∃ jT, rget? (runEvents w ct.2).jobs j.id = some jT ∧
          isTerminal jT.status = true :=
      fun j hj => runEvents_entry_terminal envOf ct.1 ct.2 hctHead w j hj
    have hkeys1 : (rkeys (runEvents w ct.2).jobs).Nodup :=
      nodup_rkeys_runEvents ct.2 w hkeys
    have hinact1 : ∀ i v, rget? (runEvents w ct.2).jobs i = some v →
        isActive v.status = false := by
      intro i v hv
      by_cases hi : i ∈ ct.1.map TranscriptionJob.id
      · rcases List.mem_map.mp hi with ⟨j, hj, rfl⟩
        obtain ⟨jT, hjT, hterm⟩ := hF2 j hj
        rw [hv] at hjT
        cases hjT
        exact not_active_of_terminal _ hterm
      · rw [hF1 i hi] at hv
        exact hinact i v hv
    have hpend1 : ∀ ct2 ∈ ctrs, ∀ j ∈ ct2.1,
        rget? (runEvents w ct.2).jobs j.id = some j ∧
          j.status = FileStatus.Pending := by
      intro ct2 h2 j hj
      have hid : j.id ∉ ct.1.map TranscriptionJob.id := by
        intro hin
        exact hdisj _ hin (hmemRest ct2 h2 j hj)
      rw [hF1 _ hid]
      exact hpend ct2 (List.mem_cons_of_mem _ h2) j hj
    obtain ⟨ihA, ihC, ihB⟩ := ih (runEvents w ct.2)
      (fun ct2 h2 => hct ct2 (List.mem_cons_of_mem _ h2))
      hpend1
      (List.nodup_append.mp hndApp).2.1
      hkeys1
      hinact1
      (fun ct2 h2 => hcap ct2 (List.mem_cons_of_mem _ h2))
    refine ⟨?_, ?_, ?_⟩
    · -- wave boundaries
      intro k hk
      cases k with
      | zero =>
        refine ⟨by simp, ?_⟩
        intro ct2 h2 j hj
        exact hpend ct2 (by simpa using h2) j hj
      | succ k2 =>
        have hk2 : k2 ≤ ctrs.length := by
          simpa using hk
        obtain ⟨ihA1, ihA2⟩ := ihA k2 hk2
        refine ⟨?_, ?_⟩
        · intro ct2 h2 j hj
          rw [List.take_succ_cons] at h2
          rcases List.mem_cons.mp h2 with rfl | h3
          · obtain ⟨jT, hjT, hterm⟩ := hF2 j hj
            refine ⟨jT, ?_, hterm⟩
            rw [show (ct2 :: ctrs).take (k2 + 1) = ct2 :: ctrs.take k2 from rfl]
            rw [runChunks_cons]
            rw [ihC k2 hk2 j.id ?_]
            · exact hjT
            · intro ct3 h3 hin
              have : j.id ∈ ct2.1.map TranscriptionJob.id :=
                List.mem_map_of_mem _ hj
              exact hdisj _ this
                (List.mem_flatten.mpr
                  ⟨ct3.1.map TranscriptionJob.id,
                    List.mem_map_of_mem _ (List.mem_of_mem_take h3),
                    hin⟩)
          · rw [show (ct :: ctrs).take (k2 + 1) = ct :: ctrs.take k2 from rfl]
            rw [runChunks_cons]
            exact ihA1 ct2 h3 j hj
        · intro ct2 h2 j hj
          rw [show (ct :: ctrs).drop (k2 + 1) = ctrs.drop k2 from rfl] at h2
          rw [show (ct :: ctrs).take (k2 + 1) = ct :: ctrs.take k2 from rfl]
          rw [runChunks_cons]
          exact ihA2 ct2 h2 j hj
    · -- untouched entries
      intro k hk i hi
      cases k with
      | zero => rfl
      | succ k2 =>
        have hk2 : k2 ≤ ctrs.length := by simpa using hk
        rw [show (ct :: ctrs).take (k2 + 1) = ct :: ctrs.take k2 from rfl]
        rw [runChunks_cons]
        have hiHead : i ∉ ct.1.map TranscriptionJob.id :=
          hi ct (by rw [List.take_succ_cons]; exact List.mem_cons_self _ _)
        have hiRest : ∀ ct2 ∈ ctrs.take k2, i ∉ ct2.1.map TranscriptionJob.id := by
          intro ct2 h2
          exact hi ct2 (by rw [List.take_succ_cons]; exact List.mem_cons_of_mem _ h2)
        rw [ihC k2 hk2 i hiRest]
        exact hF1 i hiHead
    · -- concurrency cap
      intro k hk pre hpre
      cases k with
      | zero =>
        have hget : ((ct :: ctrs).get ⟨0, hk⟩) = ct := rfl
        rw [hget] at hpre
        rw [show (ct :: ctrs).take 0 = [] from rfl, runChunks_nil]
        have hb : activeCount (runEvents w pre).jobs ≤
            (ct.1.map TranscriptionJob.id).length := by
          apply activeCount_le_of_keys _ _ (nodup_rkeys_runEvents pre w hkeys)
          intro i v hv hact
          by_contra hni
          rw [runEvents_entry_unchanged envOf ct.1 ct.2 hctHead w i hni pre
            hpre.subset] at hv
          rw [hinact i v hv] at hact
          cases hact
        refine le_trans hb ?_
        rw [List.length_map]
        exact hcap ct (List.mem_cons_self ct ctrs)
      | succ k2 =>
        have hk2 : k2 < ctrs.length := by simpa using hk
        have hget : ((ct :: ctrs).get ⟨k2 + 1, hk⟩) = ctrs.get ⟨k2, hk2⟩ := rfl
        rw [hget] at hpre
        rw [show (ct :: ctrs).take (k2 + 1) = ct :: ctrs.take k2 from rfl]
        rw [runChunks_cons]
        exact ihB k2 hk2 pre hpre

/-! ## The published value sequence of one job entry -/

/-- The callback body's rewrite of a registry entry: progress
`30 + p * 0.7`, status `Transcribing`. -/
def cbJob (j : TranscriptionJob) (p : Rat) : TranscriptionJob :=
  { j with progress := 30 + p * (7 / 10), status := FileStatus.Transcribing }

/-- Effect of one of a job's own events on its (present) registry
entry. -/
def entryStepJ (j : TranscriptionJob) (e : PipelineEvent) : TranscriptionJob :=
  match e with
  | PipelineEvent.publish j2 => j2
  | PipelineEvent.callback _ p => cbJob j p
  | _ => j

/-- All successive values of a job's registry entry along a list of its
own events, starting with the initial entry. -/
def entryTrace (j : TranscriptionJob) : List PipelineEvent → List TranscriptionJob
  | [] => [j]
  | e :: es => j :: entryTrace (entryStepJ j e) es

theorem entryTrace_cbs_publish (j jC : TranscriptionJob) (id : String)
    (cbs : List Rat) :
    entryTrace j
      ((cbs.map fun p => PipelineEvent.callback id p) ++
        [PipelineEvent.publish jC]) =
      (j :: cbs.map fun p => cbJob j p) ++ [jC] := by
  induction cbs generalizing j with
  | nil => rfl
  | cons p cbs ih =>
    show j :: entryTrace (cbJob j p)
        ((cbs.map fun q => PipelineEvent.callback id q) ++
          [PipelineEvent.publish jC]) = _
    rw [ih (cbJob j p)]
    rfl

/-- The `Converting`/`Transcribing`/terminal snapshots used below. -/
def convSnap (j : TranscriptionJob) : TranscriptionJob :=
  { j with status := FileStatus.Converting }

def transSnap (j : TranscriptionJob) : TranscriptionJob :=
  { j with status := FileStatus.Transcribing, progress := 30 }

def errSnap (j : TranscriptionJob) (msg : String) : TranscriptionJob :=
  { j with status := FileStatus.Error, error := some msg }

def doneSnap (j : TranscriptionJob) : TranscriptionJob :=
  { j with status := FileStatus.Completed, progress := 100,
           output_path := some (get_output_path j.file_path j.settings) }

theorem regProj_cleanup (id : String) (b : Bool) (p : RPath) :
    regProj id (if b then [] else [PipelineEvent.removeWav p]) = [] := by
  cases b <;> simp [regProj, evId]

theorem regProj_jobEvents_conv_fail (env : JobEnv) (job : TranscriptionJob)
    (er : String) (hcr : env.convertResult = some er) :
    regProj job.id (jobEvents env job) =
      [PipelineEvent.publish (convSnap job),
       PipelineEvent.publish
         (errSnap (convSnap job) ("Conversion failed: " ++ er))] := by
  simp only [jobEvents, hcr]
  cases hcw : env.convertCreatesWav <;>
    simp [regProj, List.filter_cons, evId, convSnap, errSnap]

theorem regProj_jobEvents_utf8_fail (env : JobEnv) (job : TranscriptionJob)
    (hcr : env.convertResult = none) (hu : env.modelPathUtf8 = false) :
    regProj job.id (jobEvents env job) =
      [PipelineEvent.publish (convSnap job),
       PipelineEvent.publish (transSnap job),
       PipelineEvent.publish
         (errSnap (transSnap job)
           ("Failed to load model: Invalid model path"))] := by
  simp only [jobEvents, hcr, hu, if_pos rfl, Bool.false_eq_true]
  simp [regProj, List.filter_cons, evId, convSnap, transSnap, errSnap]

theorem regProj_jobEvents_ctx_fail (env : JobEnv) (job : TranscriptionJob)
    (hcr : env.convertResult = none) (hu : env.modelPathUtf8 = true)
    (hctx : env.ctxOk = false) :
    regProj job.id (jobEvents env job) =
      [PipelineEvent.publish (convSnap job),
       PipelineEvent.publish (transSnap job),
       PipelineEvent.publish
         (errSnap (transSnap job)
           ("Transcription failed: " ++ env.ctxErr))] := by
  have hts : transcribe_file env job.settings = Except.error env.ctxErr := by
    simp [transcribe_file, hctx]
  simp only [jobEvents, hcr, hu, Bool.true_eq_false, if_false, hts]
  rw [regProj]
  rw [List.filter_append, List.filter_append]
  rw [show List.filter (fun e => decide (evId e = some job.id))
      (if job.settings.keep_wav then [] else
        [PipelineEvent.removeWav (get_temp_wav_path job.file_path)]) = []
    from regProj_cleanup job.id job.settings.keep_wav _]
  simp [regProj, List.filter_cons, evId, convSnap, transSnap, errSnap]

theorem regProj_jobEvents_write_fail (env : JobEnv) (job : TranscriptionJob)
    (hcr : env.convertResult = none) (hu : env.modelPathUtf8 = true)
    (hctx : env.ctxOk = true) (hw : env.writeOk = false) :
    regProj job.id (jobEvents env job) =
      [PipelineEvent.publish (convSnap job),
       PipelineEvent.publish (transSnap job)] ++
      (env.callbackProgress.map fun p => PipelineEvent.callback job.id p) ++
      [PipelineEvent.publish
        (errSnap (transSnap job)
          ("Failed to save output: " ++ env.writeErr))] := by
  have hts : transcribe_file env job.settings =
      Except.ok (formatOutput job.settings.output_format env.segments) := by
    simp [transcribe_file, hctx]
  simp only [jobEvents, hcr, hu, Bool.true_eq_false, if_false, hts, hw,
    Bool.false_eq_true, if_false]
  rw [regProj]
  rw [List.filter_append, List.filter_append, List.filter_append]
  rw [show List.filter (fun e => decide (evId e = some job.id))
      (if job.settings.keep_wav then [] else
        [PipelineEvent.removeWav (get_temp_wav_path job.file_path)]) = []
    from regProj_cleanup job.id job.settings.keep_wav _]
  simp only [List.filter_cons, evId, convSnap, transSnap, errSnap,
    List.filter_map, decide_True, Option.some.injEq, List.filter_nil,
    List.nil_append, List.append_nil, List.cons_append, decide_eq_true_eq]
  simp [List.filter_map, Function.comp, evId]
  congr 1
  apply List.filter_eq_self.mpr
  intro a ha
  simp [Function.comp, evId]

theorem regProj_jobEvents_success (env : JobEnv) (job : TranscriptionJob)
    (hcr : env.convertResult = none) (hu : env.modelPathUtf8 = true)
    (hctx : env.ctxOk = true) (hw : env.writeOk = true) :
    regProj job.id (jobEvents env job) =
      [PipelineEvent.publish (convSnap job),
       PipelineEvent.publish (transSnap job)] ++
      (env.callbackProgress.map fun p => PipelineEvent.callback job.id p) ++
      [PipelineEvent.publish (doneSnap (transSnap job))] := by
  have hts : transcribe_file env job.settings =
      Except.ok (formatOutput job.settings.output_format env.segments) := by
    simp [transcribe_file, hctx]
  simp only [jobEvents, hcr, hu, Bool.true_eq_false, if_false, hts, hw,
    eq_self_iff_true, if_true]
  rw [regProj]
  rw [List.filter_append, List.filter_append, List.filter_append,
    List.filter_append]
  rw [show List.filter (fun e => decide (evId e = some job.id))
      (if job.settings.keep_wav then [] else
        [PipelineEvent.removeWav (get_temp_wav_path job.file_path)]) = []
    from regProj_cleanup job.id job.settings.keep_wav _]
  simp only [List.filter_cons, evId, convSnap, transSnap, doneSnap,
    List.filter_map, decide_True, Option.some.injEq, List.filter_nil,
    List.nil_append, List.append_nil, List.cons_append, decide_eq_true_eq]
  simp [List.filter_map, Function.comp, evId]
  congr 1
  apply List.filter_eq_self.mpr
  intro a ha
  simp [Function.comp, evId]

/-! ## Filesystem effects of a job run -/

/-- The filesystem part of one pipeline event. -/
def applyFsEvent (fs : List RPath) (e : PipelineEvent) : List RPath :=
  match e with
  | PipelineEvent.createWav p => fsInsert fs p
  | PipelineEvent.removeWav p => fsRemove fs p
  | PipelineEvent.writeOutput p => fsInsert fs p
  | _ => fs

theorem runEvents_files (tr : List PipelineEvent) (w : World) :
    (runEvents w tr).files = tr.foldl applyFsEvent w.files := by
  induction tr generalizing w with
  | nil => rfl
  | cons e tr ih =>
    show (runEvents (applyEvent w e) tr).files = _
    rw [ih, List.foldl_cons]
    congr 1
    cases e <;> rfl

theorem foldFs_callbacks (cbs : List Rat) (id : String) (fs : List RPath) :
    (cbs.map fun p => PipelineEvent.callback id p).foldl applyFsEvent fs = fs := by
  induction cbs generalizing fs with
  | nil => rfl
  | cons p cbs ih => exact ih fs

theorem mem_fsInsert (fs : List RPath) (p q : RPath) :
    q ∈ fsInsert fs p ↔ q ∈ fs ∨ q = p := by
  unfold fsInsert
  split
  · next hp =>
    constructor
    · exact Or.inl
    · rintro (h | rfl)
      · exact h
      · exact hp
  · next hp => simp

theorem mem_fsRemove (fs : List RPath) (p q : RPath) :
    q ∈ fsRemove fs p ↔ q ∈ fs ∧ ¬ q = p := by
  simp [fsRemove, List.mem_filter]

theorem not_mem_fsRemove_self (fs : List RPath) (p : RPath) :
    p ∉ fsRemove fs p := by
  rw [mem_fsRemove]
  rintro ⟨h1, h2⟩
  exact h2 rfl

/-! ## The full entry trace of one job, by pipeline outcome -/

theorem entryTrace_jobEvents (env : JobEnv) (job : TranscriptionJob) :
    (∃ er, env.convertResult = some er ∧
      entryTrace job (regProj job.id (jobEvents env job)) =
        [job, convSnap job,
          errSnap (convSnap job) ("Conversion failed: " ++ er)]) ∨
    (env.convertResult = none ∧ env.modelPathUtf8 = false ∧
      entryTrace job (regProj job.id (jobEvents env job)) =
        [job, convSnap job, transSnap job,
          errSnap (transSnap job) ("Failed to load model: Invalid model path")]) ∨
    (env.convertResult = none ∧ env.modelPathUtf8 = true ∧ env.ctxOk = false ∧
      entryTrace job (regProj job.id (jobEvents env job)) =
        [job, convSnap job, transSnap job,
          errSnap (transSnap job) ("Transcription failed: " ++ env.ctxErr)]) ∨
    (env.convertResult = none ∧ env.modelPathUtf8 = true ∧ env.ctxOk = true ∧
      env.writeOk = false ∧
      entryTrace job (regProj job.id (jobEvents env job)) =
        job :: convSnap job ::
          ((transSnap job ::
              (env.callbackProgress.map fun p => cbJob (transSnap job) p)) ++
            [errSnap (transSnap job)
              ("Failed to save output: " ++ env.writeErr)])) ∨
    (env.convertResult = none ∧ env.modelPathUtf8 = true ∧ env.ctxOk = true ∧
      env.writeOk = true ∧
      entryTrace job (regProj job.id (jobEvents env job)) =
        job :: convSnap job ::
          ((transSnap job ::
              (env.callbackProgress.map fun p => cbJob (transSnap job) p)) ++
            [doneSnap (transSnap job)])) := by
  cases hcr : env.convertResult with
  | some er =>
    refine Or.inl ⟨er, rfl, ?_⟩
    rw [regProj_jobEvents_conv_fail env job er hcr]
    rfl
  | none =>
    cases hu : env.modelPathUtf8 with
    | false =>
      refine Or.inr (Or.inl ⟨rfl, rfl, ?_⟩)
      rw [regProj_jobEvents_utf8_fail env job hcr hu]
      rfl
    | true =>
      cases hctx : env.ctxOk with
      | false =>
        refine Or.inr (Or.inr (Or.inl ⟨rfl, rfl, rfl, ?_⟩))
        rw [regProj_jobEvents_ctx_fail env job hcr hu hctx]
        rfl
      | true =>
        cases hw : env.writeOk with
        | false =>
          refine Or.inr (Or.inr (Or.inr (Or.inl ⟨rfl, rfl, rfl, rfl, ?_⟩)))
          rw [regProj_jobEvents_write_fail env job hcr hu hctx hw]
          rw [show ([PipelineEvent.publish (convSnap job),
              PipelineEvent.publish (transSnap job)] ++
              (env.callbackProgress.map fun p =>
                PipelineEvent.callback job.id p) ++
              [PipelineEvent.publish (errSnap (transSnap job)
                ("Failed to save output: " ++ env.writeErr))]) =
            PipelineEvent.publish (convSnap job) ::
              PipelineEvent.publish (transSnap job) ::
              ((env.callbackProgress.map fun p =>
                  PipelineEvent.callback job.id p) ++
                [PipelineEvent.publish (errSnap (transSnap job)
                  ("Failed to save output: " ++ env.writeErr))]) from by simp]
          show job :: convSnap job :: entryTrace (transSnap job) _ = _
          rw [entryTrace_cbs_publish]
        | true =>
          refine Or.inr (Or.inr (Or.inr (Or.inr ⟨rfl, rfl, rfl, rfl, ?_⟩)))
          rw [regProj_jobEvents_success env job hcr hu hctx hw]
          rw [show ([PipelineEvent.publish (convSnap job),
              PipelineEvent.publish (transSnap job)] ++
              (env.callbackProgress.map fun p =>
                PipelineEvent.callback job.id p) ++
              [PipelineEvent.publish (doneSnap (transSnap job))]) =
            PipelineEvent.publish (convSnap job) ::
              PipelineEvent.publish (transSnap job) ::
              ((env.callbackProgress.map fun p =>
                  PipelineEvent.callback job.id p) ++
                [PipelineEvent.publish (doneSnap (transSnap job))]) from by simp]
          show job :: convSnap job :: entryTrace (transSnap job) _ = _
          rw [entryTrace_cbs_publish]

/-! ## Claim theorems -/

/-- C9: formatting is a pure function of the segment list; on the
segments `[(0,150,"hello"),(150,300,"world")]` the numbered subtitle
format (Srt) produces block 1 timed `00:00:00,000 --> 00:00:01,500` and
block 2 timed `00:00:01,500 --> 00:00:03,000` with blocks numbered from
1, the structured format (Json) produces start/end seconds `0.0`/`1.5`
and `1.5`/`3.0` with 0-based ids, and the plain-text format joins the
segment texts with a newline in emission order. -/
theorem c9_formatter_round_trip :
    srtFormat [⟨0, 150, "hello"⟩, ⟨150, 300, "world"⟩] =
      "1\n00:00:00,000 --> 00:00:01,500\nhello\n\n2\n00:00:01,500 --> 00:00:03,000\nworld\n\n" ∧
    jsonSegments [⟨0, 150, "hello"⟩, ⟨150, 300, "world"⟩] =
      [⟨0, 0, 3 / 2, "hello"⟩, ⟨1, 3 / 2, 3, "world"⟩] ∧
    txtFormat [⟨0, 150, "hello"⟩, ⟨150, 300, "world"⟩] = "hello\nworld" ∧
    formatOutput OutputFormat.Srt [⟨0, 150, "hello"⟩, ⟨150, 300, "world"⟩] =
      srtFormat [⟨0, 150, "hello"⟩, ⟨150, 300, "world"⟩] ∧
    formatOutput OutputFormat.Txt [⟨0, 150, "hello"⟩, ⟨150, 300, "world"⟩] =
      txtFormat [⟨0, 150, "hello"⟩, ⟨150, 300, "world"⟩] := by
  refine ⟨by decide, ?_, by decide, rfl, rfl⟩
  norm_num [jsonSegments, List.enum]

/-- C10: for an input whose extension is already `wav` (accepted by the
ingest allow-list) the computed intermediate WAV path is the input path
itself; in general the intermediate path is the input path with its
extension replaced by `wav`, so two inputs with the same parent
directory and file stem share one intermediate path. -/
theorem c10_temp_wav_path :
    (∀ p : RPath, p.extension = some "wav" →
      get_temp_wav_path p = p ∧ is_audio_file p = true) ∧
    (∀ p : RPath, get_temp_wav_path p =
      { dir := p.dir, stem := p.stem, ext := some "wav" }) ∧
    (∀ p q : RPath, p.dir = q.dir → p.file_stem = q.file_stem →
      get_temp_wav_path p = get_temp_wav_path q) := by
  refine ⟨?_, ?_, ?_⟩
  · intro p hext
    obtain ⟨d, st, e⟩ := p
    have he : e = some "wav" := hext
    subst he
    constructor
    · simp [get_temp_wav_path, RPath.set_extension]
    · simp only [is_audio_file, RPath.extension]
      decide
  · intro p
    obtain ⟨d, st, e⟩ := p
    simp [get_temp_wav_path, RPath.set_extension]
  · intro p q hd hs
    obtain ⟨d1, s1, e1⟩ := p
    obtain ⟨d2, s2, e2⟩ := q
    have hd2 : d1 = d2 := hd
    have hs2 : s1 = s2 := hs
    subst hd2
    subst hs2
    simp [get_temp_wav_path, RPath.set_extension]

/-- Witness for C10 at concrete paths. -/
theorem c10_temp_wav_path_witness :
    (get_temp_wav_path ⟨["d"], "a", some "wav"⟩ = ⟨["d"], "a", some "wav"⟩ ∧
      is_audio_file ⟨["d"], "a", some "wav"⟩ = true) ∧
    get_temp_wav_path ⟨["d"], "a", some "mp3"⟩ =
      get_temp_wav_path ⟨["d"], "a", some "wav"⟩ :=
  ⟨c10_temp_wav_path.1 ⟨["d"], "a", some "wav"⟩ (by decide),
    c10_temp_wav_path.2.2 ⟨["d"], "a", some "mp3"⟩ ⟨["d"], "a", some "wav"⟩
      (by decide) (by decide)⟩

/-- C5 counterexample: the model file `ggml-base.bin` exists on no
filesystem (here: the empty one), yet `load_model` succeeds for its
path, refuting the claim that `load_model` fails whenever the path does
not exist; `load_model` never consults the filesystem at all. -/
theorem c5_counterexample :
    get_model_path "base" ∉ ([] : List RPath) ∧
    load_model WhisperTranscriber.new (get_model_path "base") true =
      Except.ok { model_path := some (get_model_path "base") } :=
  ⟨by simp, rfl⟩

/-- C5 amended: `load_model` does not inspect the filesystem; it binds
any path and fails only when the path is not representable as UTF-8.
A missing or invalid model file is detected later: `transcribe_file`
fails when the whisper context cannot be created, and
`start_transcription` eagerly rejects a batch whose configured model
file is absent. -/
theorem c5_amended :
    (∀ (t : WhisperTranscriber) (p : RPath) (utf8 : Bool),
      (load_model t p utf8 = Except.ok { t with model_path := some p } ↔
        utf8 = true) ∧
      (load_model t p utf8 = Except.error "Invalid model path" ↔
        utf8 = false)) ∧
    (∀ (env : JobEnv) (s : TranscriptionSettings), env.ctxOk = false →
      transcribe_file env s = Except.error env.ctxErr) ∧
    (∀ (w : World) (files : List FileEntry) (s : TranscriptionSettings),
      get_model_path s.model ∉ w.files →
      start_transcription w files s =
        Except.error ("Model not downloaded: " ++ s.model)) := by
  refine ⟨?_, ?_, ?_⟩
  · intro t p utf8
    cases utf8 <;> simp [load_model]
  · intro env s h
    simp [transcribe_file, h]
  · intro w files s h
    simp [start_transcription, h]

/-- Witness for C5 at a concrete transcriber, environment and world. -/
theorem c5_amended_witness :
    (load_model WhisperTranscriber.new (get_model_path "base") false =
      Except.error "Invalid model path" ↔ false = false) ∧
    transcribe_file
      ⟨none, false, true, false, "ctx", [], [], true, ""⟩
      ⟨none, "base", OutputFormat.Srt, false, none, 1⟩ =
      Except.error "ctx" ∧
    start_transcription ⟨[], [], []⟩ []
      ⟨none, "base", OutputFormat.Srt, false, none, 1⟩ =
      Except.error ("Model not downloaded: " ++ "base") :=
  ⟨(c5_amended.1 WhisperTranscriber.new (get_model_path "base") false).2,
    c5_amended.2.1 ⟨none, false, true, false, "ctx", [], [], true, ""⟩
      ⟨none, "base", OutputFormat.Srt, false, none, 1⟩ rfl,
    c5_amended.2.2 ⟨[], [], []⟩ []
      ⟨none, "base", OutputFormat.Srt, false, none, 1⟩ (by simp)⟩

/-- C7: when the configured model file is absent, `start_transcription`
fails synchronously with the fixed error before creating any job, and
the combined start-and-dispatch run leaves the world untouched — no job
work of any kind starts. -/
theorem c7_missing_model_fail_fast (w : World) (files : List FileEntry)
    (settings : TranscriptionSettings) (envOf : String → JobEnv)
    (order : List TranscriptionJob)
    (h : get_model_path settings.model ∉ w.files) :
    start_transcription w files settings =
      Except.error ("Model not downloaded: " ++ settings.model) ∧
    start_and_process w files settings envOf order = w := by
  have hs : start_transcription w files settings =
      Except.error ("Model not downloaded: " ++ settings.model) := by
    simp [start_transcription, h]
  exact ⟨hs, by simp [start_and_process, hs]⟩

/-- Witness for C7: a world with an empty disk and one file. -/
theorem c7_missing_model_fail_fast_witness :
    start_transcription ⟨[], [], []⟩
      [⟨"f1", ⟨["d"], "a", some "mp3"⟩, "a.mp3", 1, FileStatus.Pending, 0,
        none, none⟩]
      ⟨none, "base", OutputFormat.Srt, false, none, 1⟩ =
      Except.error ("Model not downloaded: " ++ "base") ∧
    start_and_process ⟨[], [], []⟩
      [⟨"f1", ⟨["d"], "a", some "mp3"⟩, "a.mp3", 1, FileStatus.Pending, 0,
        none, none⟩]
      ⟨none, "base", OutputFormat.Srt, false, none, 1⟩
      (fun _ => ⟨none, false, true, true, "", [], [], true, ""⟩) [] =
      ⟨[], [], []⟩ :=
  c7_missing_model_fail_fast ⟨[], [], []⟩ _ _ _ [] (by simp)

/-- C1 (code divergence): the `start_transcription` command of `lib.rs`
builds a separate `TranscriptionManager` and registers the batch's jobs
only there, never in the Tauri-managed state the observer commands
query, so after starting a batch that created job `f1` the ephemeral
registry holds the job while `get_job_status`/`get_all_jobs` on the
managed state return nothing. -/
theorem c1_separate_instance_bug :
    (∀ (st : AppState) (files : List FileEntry)
        (settings : TranscriptionSettings),
      (start_transcription_cmd st files settings).1 = st) ∧
    ((start_transcription_cmd
        ⟨⟨[], [], [get_model_path "base"]⟩⟩
        [⟨"f1", ⟨["d"], "a", some "mp3"⟩, "a.mp3", 1, FileStatus.Pending, 0,
          none, none⟩]
        ⟨none, "base", OutputFormat.Srt, false, none, 1⟩).2 =
      Except.ok
        ⟨[("f1",
            mkJob
              ⟨"f1", ⟨["d"], "a", some "mp3"⟩, "a.mp3", 1, FileStatus.Pending,
                0, none, none⟩
              ⟨none, "base", OutputFormat.Srt, false, none, 1⟩)],
          [], [get_model_path "base"]⟩ ∧
      get_job_status_cmd ⟨⟨[], [], [get_model_path "base"]⟩⟩ "f1" = none ∧
      get_all_jobs_cmd ⟨⟨[], [], [get_model_path "base"]⟩⟩ = []) := by
  refine ⟨fun st files settings => rfl, ?_, rfl, rfl⟩
  simp [start_transcription_cmd, start_transcription, get_model_path, rinsert]

theorem start_transcription_activeTasks (w : World) (files : List FileEntry)
    (settings : TranscriptionSettings) (w2 : World)
    (h : start_transcription w files settings = Except.ok w2) :
    w2.activeTasks = w.activeTasks := by
  simp only [start_transcription] at h
  split at h
  · cases h
    rfl
  · cases h

theorem applyOp_activeTasks_nil (w : World) (op : ManagerOp)
    (h : w.activeTasks = []) : (applyOp w op).activeTasks = [] := by
  cases op with
  | start files settings =>
    simp only [applyOp]
    cases hs : start_transcription w files settings with
    | ok w2 => rw [start_transcription_activeTasks w files settings w2 hs]; exact h
    | error e => exact h
  | step e =>
    show (applyEvent w e).activeTasks = []
    rw [applyEvent_activeTasks]
    exact h
  | cancel id =>
    show (w.activeTasks.filter fun t => decide ¬(t = id)) = []
    rw [h]
    rfl
  | clearCompleted => exact h

theorem foldOps_activeTasks_nil (ops : List ManagerOp) :
    ∀ (w : World), w.activeTasks = [] →
      (ops.foldl applyOp w).activeTasks = [] := by
  induction ops with
  | nil => intro w h; exact h
  | cons op ops ih =>
    intro w h
    exact ih (applyOp w op) (applyOp_activeTasks_nil w op h)

/-- C2 (code divergence): no operation ever stores a task handle in
`active_tasks` — it stays empty under every operation sequence from a
fresh manager, so the "abort the running task" half of `cancel_job`
never fires — and a job cancelled in mid-run is later overwritten by its
still-running pipeline, here all the way to `Completed`: after the
cancel the entry reads `Error`/"Cancelled by user", and after the
pipeline's remaining events it reads `Completed`. -/
theorem c2_cancel_bug :
    (∀ (ops : List ManagerOp) (fs0 : List RPath),
      ((ops.foldl applyOp ⟨[], [], fs0⟩).activeTasks = [])) ∧
    (((((jobEvents ⟨none, true, true, true, "", [], [], true, ""⟩
          (mkJob
            ⟨"a", ⟨["d"], "x", some "mp3"⟩, "x.mp3", 1, FileStatus.Pending, 0,
              none, none⟩
            ⟨none, "base", OutputFormat.Srt, true, none, 1⟩)).take 4).map
          ManagerOp.step ++ [ManagerOp.cancel "a"]).foldl applyOp
        ⟨[("a",
            mkJob
              ⟨"a", ⟨["d"], "x", some "mp3"⟩, "x.mp3", 1, FileStatus.Pending,
                0, none, none⟩
              ⟨none, "base", OutputFormat.Srt, true, none, 1⟩)],
          [], [get_model_path "base"]⟩ |>
        (fun wc =>
          (get_job_status wc "a").map TranscriptionJob.status =
              some FileStatus.Error ∧
            (get_job_status wc "a").map TranscriptionJob.error =
              some (some cancelMsg) ∧
            (get_job_status
              (((jobEvents ⟨none, true, true, true, "", [], [], true, ""⟩
                  (mkJob
                    ⟨"a", ⟨["d"], "x", some "mp3"⟩, "x.mp3", 1,
                      FileStatus.Pending, 0, none, none⟩
                    ⟨none, "base", OutputFormat.Srt, true, none, 1⟩)).drop 4).foldl
                applyEvent wc) "a").map TranscriptionJob.status =
              some FileStatus.Completed))) := by
  refine ⟨fun ops fs0 => foldOps_activeTasks_nil ops _ rfl, ?_, ?_, ?_⟩ <;> rfl

theorem rget?_foldl_mkJob_ne (settings : TranscriptionSettings) (i : String) :
    ∀ (files : List FileEntry) (r : Registry), (∀ f ∈ files, ¬ f.id = i) →
      rget? (files.foldl (fun r f => rinsert r f.id (mkJob f settings)) r) i =
        rget? r i := by
  intro files
  induction files with
  | nil => intro r h; rfl
  | cons f fs ih =>
    intro r h
    rw [List.foldl_cons, ih _ fun g hg => h g (List.mem_cons_of_mem _ hg),
      rget?_rinsert, if_neg (h f (List.mem_cons_self _ _))]

/-- C3 counterexample: `cancel_job` on a job that is already terminal
(here `Completed` with progress 100) rewrites its status to `Error` with
the cancellation message — an operation other than removal that changes
a terminal job's fields, refuting the claim as stated. -/
theorem c3_counterexample :
    isTerminal (FileStatus.Completed) = true ∧
    (get_job_status
        (cancel_job
          ⟨[("a", ⟨"a", ⟨["d"], "x", some "mp3"⟩,
              ⟨none, "base", OutputFormat.Srt, false, none, 1⟩,
              FileStatus.Completed, 100, none,
              some ⟨["d"], "x", some "srt"⟩⟩)], [], []⟩
          "a") "a").map TranscriptionJob.status = some FileStatus.Error ∧
    (get_job_status
        (cancel_job
          ⟨[("a", ⟨"a", ⟨["d"], "x", some "mp3"⟩,
              ⟨none, "base", OutputFormat.Srt, false, none, 1⟩,
              FileStatus.Completed, 100, none,
              some ⟨["d"], "x", some "srt"⟩⟩)], [], []⟩
          "a") "a").map TranscriptionJob.error = some (some cancelMsg) :=
  ⟨rfl, rfl, rfl⟩

/-- C3 amended: a terminal registry entry is preserved by the queries,
by `clear_completed_jobs` (which removes it exactly when it is
`Completed` and leaves other entries' fields untouched), by
`start_transcription` runs whose files use fresh ids, and by pipeline
events addressed to other jobs; the exceptions are explicit removal and
`cancel_job` on that very id, which forces even a terminal job to
`Error` with the fixed cancellation message while leaving its progress
and output path as they were. -/
theorem c3_amended (w : World) (i : String) (j : TranscriptionJob)
    (hnd : (rkeys w.jobs).Nodup)
    (hj : rget? w.jobs i = some j)
    (_hterm : isTerminal j.status = true) :
    get_job_status w i = some j ∧
    (j.status = FileStatus.Error →
      rget? (clear_completed_jobs w).jobs i = some j) ∧
    (j.status = FileStatus.Completed →
      rget? (clear_completed_jobs w).jobs i = none) ∧
    (∀ (files : List FileEntry) (settings : TranscriptionSettings)
        (w2 : World), (∀ f ∈ files, ¬ f.id = i) →
      start_transcription w files settings = Except.ok w2 →
      rget? w2.jobs i = some j) ∧
    (∀ i2, ¬ i2 = i → rget? (cancel_job w i2).jobs i = some j) ∧
    (rget? (cancel_job w i).jobs i =
      some { j with status := FileStatus.Error, error := some cancelMsg }) ∧
    (∀ e, ¬ evId e = some i → rget? (applyEvent w e).jobs i = some j) := by
  refine ⟨hj, ?_, ?_, ?_, ?_, ?_, ?_⟩
  · intro hst
    rw [show (clear_completed_jobs w).jobs = w.jobs.filter _ from rfl,
      rget?_filter w.jobs _ i hnd, hj]
    simp [hst]
  · intro hst
    rw [show (clear_completed_jobs w).jobs = w.jobs.filter _ from rfl,
      rget?_filter w.jobs _ i hnd, hj]
    simp [hst]
  · intro files settings w2 hfresh hok
    simp only [start_transcription] at hok
    split at hok
    · cases hok
      show rget? (files.foldl _ w.jobs) i = some j
      rw [rget?_foldl_mkJob_ne settings i files w.jobs hfresh]
      exact hj
    · cases hok
  · intro i2 hne
    show rget? (match rget? w.jobs i2 with
      | some j2 => rinsert w.jobs i2
          { j2 with status := FileStatus.Error, error := some cancelMsg }
      | none => w.jobs) i = some j
    cases hv : rget? w.jobs i2 with
    | none => simpa using hj
    | some j2 =>
      simp only
      rw [rget?_rinsert, if_neg hne]
      exact hj
  · show rget? (match rget? w.jobs i with
      | some j2 => rinsert w.jobs i
          { j2 with status := FileStatus.Error, error := some cancelMsg }
      | none => w.jobs) i = _
    rw [hj]
    simp only
    rw [rget?_rinsert, if_pos rfl]
  · intro e he
    rw [rget?_applyEvent_miss w e i he]
    exact hj

/-- Witness for C3 at a concrete world holding one `Completed` and one
`Error` job. -/
theorem c3_amended_witness :
    get_job_status
        ⟨[("a", ⟨"a", ⟨["d"], "x", some "mp3"⟩,
            ⟨none, "base", OutputFormat.Srt, false, none, 1⟩,
            FileStatus.Error, 30, some "boom", none⟩)], [], []⟩ "a" =
      some ⟨"a", ⟨["d"], "x", some "mp3"⟩,
        ⟨none, "base", OutputFormat.Srt, false, none, 1⟩,
        FileStatus.Error, 30, some "boom", none⟩ ∧
    rget? (clear_completed_jobs
        ⟨[("a", ⟨"a", ⟨["d"], "x", some "mp3"⟩,
            ⟨none, "base", OutputFormat.Srt, false, none, 1⟩,
            FileStatus.Error, 30, some "boom", none⟩)], [], []⟩).jobs "a" =
      some ⟨"a", ⟨["d"], "x", some "mp3"⟩,
        ⟨none, "base", OutputFormat.Srt, false, none, 1⟩,
        FileStatus.Error, 30, some "boom", none⟩ :=
  ⟨(c3_amended
      ⟨[("a", ⟨"a", ⟨["d"], "x", some "mp3"⟩,
          ⟨none, "base", OutputFormat.Srt, false, none, 1⟩,
          FileStatus.Error, 30, some "boom", none⟩)], [], []⟩ "a" _
      (by decide) rfl rfl).1,
    (c3_amended
      ⟨[("a", ⟨"a", ⟨["d"], "x", some "mp3"⟩,
          ⟨none, "base", OutputFormat.Srt, false, none, 1⟩,
          FileStatus.Error, 30, some "boom", none⟩)], [], []⟩ "a" _
      (by decide) rfl rfl).2.1 rfl⟩

/-- C6 counterexample: a conversion failure (after ffmpeg opened its
output file) returns early from the pipeline without any cleanup, so
with `keep_wav = false` the job ends in `Error` while the intermediate
WAV file is still on disk, refuting the claim that the intermediate file
is deleted on every terminal path unless `keep_intermediate` is set. -/
theorem c6_counterexample :
    (mkJob ⟨"a", ⟨["d"], "x", some "mp3"⟩, "x.mp3", 1, FileStatus.Pending, 0,
        none, none⟩
      ⟨none, "base", OutputFormat.Srt, false, none, 1⟩).settings.keep_wav =
      false ∧
    get_temp_wav_path ⟨["d"], "x", some "mp3"⟩ ∈
      (runEvents ⟨[("a",
          mkJob ⟨"a", ⟨["d"], "x", some "mp3"⟩, "x.mp3", 1, FileStatus.Pending,
              0, none, none⟩
            ⟨none, "base", OutputFormat.Srt, false, none, 1⟩)], [], []⟩
        (jobEvents ⟨some "No audio stream found", true, true, true, "", [], [],
            true, ""⟩
          (mkJob ⟨"a", ⟨["d"], "x", some "mp3"⟩, "x.mp3", 1, FileStatus.Pending,
              0, none, none⟩
            ⟨none, "base", OutputFormat.Srt, false, none, 1⟩))).files ∧
    ((runEvents ⟨[("a",
          mkJob ⟨"a", ⟨["d"], "x", some "mp3"⟩, "x.mp3", 1, FileStatus.Pending,
              0, none, none⟩
            ⟨none, "base", OutputFormat.Srt, false, none, 1⟩)], [], []⟩
        (jobEvents ⟨some "No audio stream found", true, true, true, "", [], [],
            true, ""⟩
          (mkJob ⟨"a", ⟨["d"], "x", some "mp3"⟩, "x.mp3", 1, FileStatus.Pending,
              0, none, none⟩
            ⟨none, "base", OutputFormat.Srt, false, none, 1⟩))).jobs.map
        (fun kv => (kv.1, kv.2.status))) = [("a", FileStatus.Error)] := by
  refine ⟨rfl, ?_, rfl⟩
  decide

/-- C6 amended: once the pipeline gets past model loading (conversion
succeeded and the model path was representable), the intermediate WAV
file is absent from the final filesystem when `keep_wav` is unset and
retained when it is set; but on the two early-return paths — conversion
failure (when ffmpeg already created the output) and model-load
failure — the WAV file survives even with `keep_wav` unset; and the
best-effort deletion event never touches the job registry. -/
theorem c6_wav_cleanup (env : JobEnv) (job : TranscriptionJob) (w : World) :
    (env.convertResult = none → env.modelPathUtf8 = true →
      job.settings.keep_wav = false →
      get_temp_wav_path job.file_path ∉
        (runEvents w (jobEvents env job)).files) ∧
    (env.convertResult = none → env.modelPathUtf8 = true →
      job.settings.keep_wav = true →
      get_temp_wav_path job.file_path ∈
        (runEvents w (jobEvents env job)).files) ∧
    (∀ er, env.convertResult = some er → env.convertCreatesWav = true →
      get_temp_wav_path job.file_path ∈
        (runEvents w (jobEvents env job)).files) ∧
    (env.convertResult = none → env.modelPathUtf8 = false →
      get_temp_wav_path job.file_path ∈
        (runEvents w (jobEvents env job)).files) ∧
    (∀ (w2 : World) (p : RPath),
      (applyEvent w2 (PipelineEvent.removeWav p)).jobs = w2.jobs) := by
  refine ⟨?_, ?_, ?_, ?_, fun w2 p => rfl⟩
  · intro hcr hu hkeep
    rw [runEvents_files]
    cases hctx : env.ctxOk with
    | false =>
      have hts : transcribe_file env job.settings = Except.error env.ctxErr := by
        simp [transcribe_file, hctx]
      simp only [jobEvents, hcr, hu, Bool.true_eq_false, if_false, hts, hkeep,
        Bool.false_eq_true]
      simp [applyFsEvent, not_mem_fsRemove_self]
    | true =>
      have hts : transcribe_file env job.settings =
          Except.ok (formatOutput job.settings.output_format env.segments) := by
        simp [transcribe_file, hctx]
      cases hw : env.writeOk with
      | false =>
        simp only [jobEvents, hcr, hu, Bool.true_eq_false, if_false, hts, hw,
          hkeep, Bool.false_eq_true]
        simp only [List.foldl_append, List.foldl_cons, List.foldl_nil,
          applyFsEvent, foldFs_callbacks]
        exact not_mem_fsRemove_self _ _
      | true =>
        simp only [jobEvents, hcr, hu, Bool.true_eq_false, if_false, hts, hw,
          hkeep, Bool.false_eq_true, eq_self_iff_true, if_true]
        simp only [List.foldl_append, List.foldl_cons, List.foldl_nil,
          applyFsEvent, foldFs_callbacks]
        exact not_mem_fsRemove_self _ _
  · intro hcr hu hkeep
    rw [runEvents_files]
    cases hctx : env.ctxOk with
    | false =>
      have hts : transcribe_file env job.settings = Except.error env.ctxErr := by
        simp [transcribe_file, hctx]
      simp only [jobEvents, hcr, hu, Bool.true_eq_false, if_false, hts, hkeep,
        if_true]
      simp only [List.foldl_append, List.foldl_cons, List.foldl_nil,
        applyFsEvent, foldFs_callbacks]
      exact (mem_fsInsert _ _ _).mpr (Or.inr rfl)
    | true =>
      have hts : transcribe_file env job.settings =
          Except.ok (formatOutput job.settings.output_format env.segments) := by
        simp [transcribe_file, hctx]
      cases hw : env.writeOk with
      | false =>
        simp only [jobEvents, hcr, hu, Bool.true_eq_false, if_false, hts, hw,
          hkeep, Bool.false_eq_true, if_true]
        simp only [List.foldl_append, List.foldl_cons, List.foldl_nil,
          applyFsEvent, foldFs_callbacks]
        exact (mem_fsInsert _ _ _).mpr (Or.inr rfl)
      | true =>
        simp only [jobEvents, hcr, hu, Bool.true_eq_false, if_false, hts, hw,
          hkeep, eq_self_iff_true, if_true]
        simp only [List.foldl_append, List.foldl_cons, List.foldl_nil,
          applyFsEvent, foldFs_callbacks]
        exact (mem_fsInsert _ _ _).mpr
          (Or.inl ((mem_fsInsert _ _ _).mpr (Or.inr rfl)))
  · intro er hcr hcw
    rw [runEvents_files]
    simp only [jobEvents, hcr, hcw, if_true]
    simp only [List.cons_append, List.nil_append, List.foldl_cons,
      List.foldl_nil, applyFsEvent]
    exact (mem_fsInsert _ _ _).mpr (Or.inr rfl)
  · intro hcr hu
    rw [runEvents_files]
    simp only [jobEvents, hcr, hu, if_pos rfl, Bool.false_eq_true]
    simp only [List.cons_append, List.nil_append, List.foldl_cons,
      List.foldl_nil, List.foldl_append, applyFsEvent]
    exact (mem_fsInsert _ _ _).mpr (Or.inr rfl)

/-- Witness for C6 on a successful run with `keep_wav` unset and a
model-load failure with `keep_wav` unset. -/
theorem c6_wav_cleanup_witness :
    (get_temp_wav_path ⟨["d"], "x", some "mp3"⟩ ∉
      (runEvents ⟨[], [], []⟩
        (jobEvents ⟨none, true, true, true, "", [], [], true, ""⟩
          (mkJob ⟨"a", ⟨["d"], "x", some "mp3"⟩, "x.mp3", 1, FileStatus.Pending,
              0, none, none⟩
            ⟨none, "base", OutputFormat.Srt, false, none, 1⟩))).files) ∧
    (get_temp_wav_path ⟨["d"], "x", some "mp3"⟩ ∈
      (runEvents ⟨[], [], []⟩
        (jobEvents ⟨none, true, false, true, "", [], [], true, ""⟩
          (mkJob ⟨"a", ⟨["d"], "x", some "mp3"⟩, "x.mp3", 1, FileStatus.Pending,
              0, none, none⟩
            ⟨none, "base", OutputFormat.Srt, false, none, 1⟩))).files) :=
  ⟨(c6_wav_cleanup ⟨none, true, true, true, "", [], [], true, ""⟩
      (mkJob ⟨"a", ⟨["d"], "x", some "mp3"⟩, "x.mp3", 1, FileStatus.Pending, 0,
          none, none⟩
        ⟨none, "base", OutputFormat.Srt, false, none, 1⟩)
      ⟨[], [], []⟩).1 rfl rfl rfl,
    (c6_wav_cleanup ⟨none, true, false, true, "", [], [], true, ""⟩
      (mkJob ⟨"a", ⟨["d"], "x", some "mp3"⟩, "x.mp3", 1, FileStatus.Pending, 0,
          none, none⟩
        ⟨none, "base", OutputFormat.Srt, false, none, 1⟩)
      ⟨[], [], []⟩).2.2.2.1 rfl rfl⟩

/-- C4 counterexample: when the engine reports a progress callback of
100 the registry republishes the job at progress exactly
`30 + 100 * 0.7 = 100` while its status is still `Transcribing`, so
"progress equals exactly 100 iff status is Completed" fails in the
only-if direction. -/
theorem c4_counterexample :
    (get_job_status
        (runEvents
          ⟨[("a", mkJob ⟨"a", ⟨["d"], "x", some "mp3"⟩, "x.mp3", 1,
              FileStatus.Pending, 0, none, none⟩
            ⟨none, "base", OutputFormat.Srt, true, none, 1⟩)], [],
            [get_model_path "base"]⟩
          ((jobEvents ⟨none, true, true, true, "", [100], [], true, ""⟩
            (mkJob ⟨"a", ⟨["d"], "x", some "mp3"⟩, "x.mp3", 1,
                FileStatus.Pending, 0, none, none⟩
              ⟨none, "base", OutputFormat.Srt, true, none, 1⟩)).take 4))
        "a").map TranscriptionJob.status = some FileStatus.Transcribing ∧
    (get_job_status
        (runEvents
          ⟨[("a", mkJob ⟨"a", ⟨["d"], "x", some "mp3"⟩, "x.mp3", 1,
              FileStatus.Pending, 0, none, none⟩
            ⟨none, "base", OutputFormat.Srt, true, none, 1⟩)], [],
            [get_model_path "base"]⟩
          ((jobEvents ⟨none, true, true, true, "", [100], [], true, ""⟩
            (mkJob ⟨"a", ⟨["d"], "x", some "mp3"⟩, "x.mp3", 1,
                FileStatus.Pending, 0, none, none⟩
              ⟨none, "base", OutputFormat.Srt, true, none, 1⟩)).take 4))
        "a").map TranscriptionJob.progress = some (30 + 100 * (7 / 10)) ∧
    (30 + (100 : Rat) * (7 / 10)) = 100 ∧
    FileStatus.Transcribing ≠ FileStatus.Completed := by
  refine ⟨rfl, rfl, by norm_num, by decide⟩

/-- C4 amended: along a job's own registry updates, progress is
non-decreasing into every live (non-terminal) value provided the engine
reports non-decreasing, nonnegative callback values; every `Completed`
value of the entry carries progress exactly 100 (but a `Transcribing`
entry may also reach 100, as the counterexample shows, so the "iff"
fails); on a successful conversion the third published value is the
`Transcribing` snapshot at progress fixed to 30; and each callback
republishes the entry at `30 + p * 0.7` with status `Transcribing`. -/
theorem c4_progress (env : JobEnv) (job : TranscriptionJob)
    (hst : job.status = FileStatus.Pending)
    (hp0 : job.progress = 0)
    (hmono : env.callbackProgress.Chain' (fun p q => p ≤ q))
    (hpos : ∀ p ∈ env.callbackProgress, 0 ≤ p) :
    (entryTrace job (regProj job.id (jobEvents env job))).Chain'
      (fun a b => isTerminal b.status = true ∨ a.progress ≤ b.progress) ∧
    (∀ x ∈ entryTrace job (regProj job.id (jobEvents env job)),
      x.status = FileStatus.Completed → x.progress = 100) ∧
    (env.convertResult = none →
      (entryTrace job (regProj job.id (jobEvents env job))).get? 2 =
        some (transSnap job)) ∧
    (∀ (j2 : TranscriptionJob) (p : Rat),
      entryStepJ j2 (PipelineEvent.callback job.id p) = cbJob j2 p ∧
      (cbJob j2 p).progress = 30 + p * (7 / 10) ∧
      (cbJob j2 p).status = FileStatus.Transcribing) := by
  have hchainMap : ∀ (base : TranscriptionJob),
      (env.callbackProgress.map fun p => cbJob base p).Chain'
        (fun a b => isTerminal b.status = true ∨ a.progress ≤ b.progress) := by
    intro base
    rw [List.chain'_map]
    refine hmono.imp ?_
    intro p q hpq
    refine Or.inr ?_
    show (cbJob base p).progress ≤ (cbJob base q).progress
    simp only [cbJob]
    have := mul_le_mul_of_nonneg_right hpq (by norm_num : (0 : Rat) ≤ 7 / 10)
    linarith
  have hcbsChain : ∀ (fin : TranscriptionJob), isTerminal fin.status = true →
      ((transSnap job ::
          (env.callbackProgress.map fun p => cbJob (transSnap job) p)) ++
        [fin]).Chain'
        (fun a b => isTerminal b.status = true ∨ a.progress ≤ b.progress) := by
    intro fin hfin
    rw [List.cons_append, List.chain'_cons']
    constructor
    · intro y hy
      cases hcbs : env.callbackProgress with
      | nil =>
        rw [hcbs] at hy
        simp only [List.map_nil, List.nil_append, List.head?_cons,
          Option.mem_def, Option.some.injEq] at hy
        subst hy
        exact Or.inl hfin
      | cons p0 ps =>
        rw [hcbs] at hy
        simp only [List.map_cons, List.cons_append, List.head?_cons,
          Option.mem_def, Option.some.injEq] at hy
        subst hy
        refine Or.inr ?_
        show (transSnap job).progress ≤ (cbJob (transSnap job) p0).progress
        simp only [transSnap, cbJob]
        have hp0mem : (0 : Rat) ≤ p0 := hpos p0 (by rw [hcbs]; exact List.mem_cons_self _ _)
        have := mul_nonneg hp0mem (by norm_num : (0 : Rat) ≤ 7 / 10)
        linarith
    · rw [List.chain'_append]
      refine ⟨hchainMap (transSnap job), List.chain'_singleton _, ?_⟩
      intro x hx y hy
      simp only [List.head?_cons, Option.mem_def, Option.some.injEq] at hy
      subst hy
      exact Or.inl hfin
  rcases entryTrace_jobEvents env job with
    ⟨er, hcr, htr⟩ | ⟨hcr, hu, htr⟩ | ⟨hcr, hu, hctx, htr⟩ |
    ⟨hcr, hu, hctx, hw, htr⟩ | ⟨hcr, hu, hctx, hw, htr⟩
  · refine ⟨?_, ?_, ?_, fun j2 p => ⟨rfl, rfl, rfl⟩⟩
    · rw [htr]
      exact List.chain'_cons.mpr ⟨Or.inr (le_of_eq rfl),
        List.chain'_cons.mpr ⟨Or.inl rfl, List.chain'_singleton _⟩⟩
    · rw [htr]
      intro x hx hxc
      simp only [List.mem_cons, List.not_mem_nil, or_false] at hx
      rcases hx with rfl | rfl | rfl
      · rw [hst] at hxc; cases hxc
      · simp [convSnap] at hxc
      · simp [errSnap, convSnap] at hxc
    · intro h
      rw [h] at hcr
      cases hcr
  · refine ⟨?_, ?_, ?_, fun j2 p => ⟨rfl, rfl, rfl⟩⟩
    · rw [htr]
      refine List.chain'_cons.mpr ⟨Or.inr (le_of_eq rfl),
        List.chain'_cons.mpr ⟨Or.inr ?_,
          List.chain'_cons.mpr ⟨Or.inl rfl, List.chain'_singleton _⟩⟩⟩
      show (convSnap job).progress ≤ (transSnap job).progress
      simp only [convSnap, transSnap]
      rw [hp0]
      norm_num
    · rw [htr]
      intro x hx hxc
      simp only [List.mem_cons, List.not_mem_nil, or_false] at hx
      rcases hx with rfl | rfl | rfl | rfl
      · rw [hst] at hxc; cases hxc
      · simp [convSnap] at hxc
      · simp [transSnap] at hxc
      · simp [errSnap, transSnap] at hxc
    · intro h
      rw [htr]
      rfl
  · refine ⟨?_, ?_, ?_, fun j2 p => ⟨rfl, rfl, rfl⟩⟩
    · rw [htr]
      refine List.chain'_cons.mpr ⟨Or.inr (le_of_eq rfl),
        List.chain'_cons.mpr ⟨Or.inr ?_,
          List.chain'_cons.mpr ⟨Or.inl rfl, List.chain'_singleton _⟩⟩⟩
      show (convSnap job).progress ≤ (transSnap job).progress
      simp only [convSnap, transSnap]
      rw [hp0]
      norm_num
    · rw [htr]
      intro x hx hxc
      simp only [List.mem_cons, List.not_mem_nil, or_false] at hx
      rcases hx with rfl | rfl | rfl | rfl
      · rw [hst] at hxc; cases hxc
      · simp [convSnap] at hxc
      · simp [transSnap] at hxc
      · simp [errSnap, transSnap] at hxc
    · intro h
      rw [htr]
      rfl
  · refine ⟨?_, ?_, ?_, fun j2 p => ⟨rfl, rfl, rfl⟩⟩
    · rw [htr]
      refine List.chain'_cons.mpr ⟨Or.inr (le_of_eq rfl), ?_⟩
      rw [show (transSnap job ::
          (env.callbackProgress.map fun p => cbJob (transSnap job) p)) ++
          [errSnap (transSnap job)
            ("Failed to save output: " ++ env.writeErr)] =
        transSnap job ::
          ((env.callbackProgress.map fun p => cbJob (transSnap job) p) ++
            [errSnap (transSnap job)
              ("Failed to save output: " ++ env.writeErr)]) from by simp]
      refine List.chain'_cons.mpr ⟨Or.inr ?_, ?_⟩
      · show (convSnap job).progress ≤ (transSnap job).progress
        simp only [convSnap, transSnap]
        rw [hp0]
        norm_num
      · have := hcbsChain
          (errSnap (transSnap job) ("Failed to save output: " ++ env.writeErr))
          rfl
        rw [List.cons_append] at this
        exact this
    · rw [htr]
      intro x hx hxc
      simp only [List.mem_cons, List.mem_append, List.mem_map,
        List.not_mem_nil, or_false] at hx
      rcases hx with rfl | rfl | (rfl | ⟨p, hp, rfl⟩) | rfl
      · rw [hst] at hxc; cases hxc
      · simp [convSnap] at hxc
      · simp [transSnap] at hxc
      · simp [cbJob] at hxc
      · simp [errSnap, transSnap] at hxc
    · intro h
      rw [htr]
      rfl
  · refine ⟨?_, ?_, ?_, fun j2 p => ⟨rfl, rfl, rfl⟩⟩
    · rw [htr]
      refine List.chain'_cons.mpr ⟨Or.inr (le_of_eq rfl), ?_⟩
      rw [show (transSnap job ::
          (env.callbackProgress.map fun p => cbJob (transSnap job) p)) ++
          [doneSnap (transSnap job)] =
        transSnap job ::
          ((env.callbackProgress.map fun p => cbJob (transSnap job) p) ++
            [doneSnap (transSnap job)]) from by simp]
      refine List.chain'_cons.mpr ⟨Or.inr ?_, ?_⟩
      · show (convSnap job).progress ≤ (transSnap job).progress
        simp only [convSnap, transSnap]
        rw [hp0]
        norm_num
      · have := hcbsChain (doneSnap (transSnap job)) rfl
        rw [List.cons_append] at this
        exact this
    · rw [htr]
      intro x hx hxc
      simp only [List.mem_cons, List.mem_append, List.mem_map,
        List.not_mem_nil, or_false] at hx
      rcases hx with rfl | rfl | (rfl | ⟨p, hp, rfl⟩) | rfl
      · rw [hst] at hxc; cases hxc
      · simp [convSnap] at hxc
      · simp [transSnap] at hxc
      · simp [cbJob] at hxc
      · rfl
    · intro h
      rw [htr]
      rfl

/-- Witness for C4 on a concrete successful run with no callbacks. -/
theorem c4_progress_witness :
    (entryTrace
        (mkJob ⟨"a", ⟨["d"], "x", some "mp3"⟩, "x.mp3", 1, FileStatus.Pending,
            0, none, none⟩
          ⟨none, "base", OutputFormat.Srt, true, none, 1⟩)
        (regProj "a"
          (jobEvents ⟨none, true, true, true, "", [], [], true, ""⟩
            (mkJob ⟨"a", ⟨["d"], "x", some "mp3"⟩, "x.mp3", 1,
                FileStatus.Pending, 0, none, none⟩
              ⟨none, "base", OutputFormat.Srt, true, none, 1⟩)))).Chain'
      (fun a b => isTerminal b.status = true ∨ a.progress ≤ b.progress) ∧
    (entryTrace
        (mkJob ⟨"a", ⟨["d"], "x", some "mp3"⟩, "x.mp3", 1, FileStatus.Pending,
            0, none, none⟩
          ⟨none, "base", OutputFormat.Srt, true, none, 1⟩)
        (regProj "a"
          (jobEvents ⟨none, true, true, true, "", [], [], true, ""⟩
            (mkJob ⟨"a", ⟨["d"], "x", some "mp3"⟩, "x.mp3", 1,
                FileStatus.Pending, 0, none, none⟩
              ⟨none, "base", OutputFormat.Srt, true, none, 1⟩)))).get? 2 =
      some (transSnap
        (mkJob ⟨"a", ⟨["d"], "x", some "mp3"⟩, "x.mp3", 1, FileStatus.Pending,
            0, none, none⟩
          ⟨none, "base", OutputFormat.Srt, true, none, 1⟩)) := by
  have h := c4_progress ⟨none, true, true, true, "", [], [], true, ""⟩
    (mkJob ⟨"a", ⟨["d"], "x", some "mp3"⟩, "x.mp3", 1, FileStatus.Pending, 0,
        none, none⟩
      ⟨none, "base", OutputFormat.Srt, true, none, 1⟩)
    rfl rfl (by decide) (by decide)
  exact ⟨h.1, h.2.2.1 rfl⟩

def c8cSettings : TranscriptionSettings :=
  ⟨none, "base", OutputFormat.Srt, false, none, 1⟩

def c8cFiles : List FileEntry :=
  [⟨"a", ⟨["d"], "fa", some "mp3"⟩, "fa.mp3", 1, FileStatus.Pending, 0,
      none, none⟩,
   ⟨"b", ⟨["d"], "fb", some "mp3"⟩, "fb.mp3", 1, FileStatus.Pending, 0,
      none, none⟩,
   ⟨"c", ⟨["d"], "fc", some "mp3"⟩, "fc.mp3", 1, FileStatus.Pending, 0,
      none, none⟩]

/-- The registry world produced by starting the batch a, b, c. -/
def c8cW1 : World :=
  ⟨[("a", mkJob (c8cFiles.get ⟨0, by decide⟩) c8cSettings),
    ("b", mkJob (c8cFiles.get ⟨1, by decide⟩) c8cSettings),
    ("c", mkJob (c8cFiles.get ⟨2, by decide⟩) c8cSettings)],
   [], [get_model_path "base"]⟩

/-- C8 counterexample (fairness): jobs are submitted in order a, b, c
and stored under fresh ids, but `process_jobs` reads the pending jobs
from the `HashMap` in an arbitrary iteration order; under the (equally
legitimate) reversed order, with `max_parallel = 1`, the chunks run c,
then b, then a — the earliest-submitted job is scheduled strictly later
than the latest-submitted one, refuting the fairness clause. -/
theorem c8_counterexample :
    start_transcription ⟨[], [], [get_model_path "base"]⟩ c8cFiles
        c8cSettings = Except.ok c8cW1 ∧
    (rvalues c8cW1.jobs).map TranscriptionJob.id = ["a", "b", "c"] ∧
    ((rvalues c8cW1.jobs).reverse).Perm (rvalues c8cW1.jobs) ∧
    ((chunks 1 (((rvalues c8cW1.jobs).reverse).filter fun j =>
        decide (j.status = FileStatus.Pending))).map
      fun c => c.map TranscriptionJob.id) = [["c"], ["b"], ["a"]] :=
  ⟨rfl, rfl, List.reverse_perm _, rfl⟩

/-- C8 amended: pending jobs, taken in the registry's (arbitrary)
iteration order, are partitioned into chunks of at most `max_parallel`
jobs each (5 pending jobs with `max_parallel = 2` give chunks of sizes
2, 2, 1, and the chunks concatenate back to the pending list); for any
interleaved execution of the waves, all jobs of one chunk are terminal
in the registry before any event of the next chunk runs, while later
chunks are still untouched `Pending` entries; and at every point at most
`max_parallel` registry entries are in `Converting` or `Transcribing`.
Submission-order fairness is not guaranteed (see the counterexample). -/
theorem c8_chunked_dispatch (envOf : String → JobEnv) (maxPar : Nat)
    (pending : List TranscriptionJob) (w0 : World)
    (ctrs : List (List TranscriptionJob × List PipelineEvent))
    (hpar : 0 < maxPar)
    (hchunks : ctrs.map Prod.fst = chunks maxPar pending)
    (hnd : (pending.map TranscriptionJob.id).Nodup)
    (hpend : ∀ j ∈ pending,
      rget? w0.jobs j.id = some j ∧ j.status = FileStatus.Pending)
    (hkeys : (rkeys w0.jobs).Nodup)
    (hinact : ∀ i v, rget? w0.jobs i = some v → isActive v.status = false)
    (hct : ∀ ct ∈ ctrs, ChunkTrace envOf ct.1 ct.2) :
    ((chunks maxPar pending).flatten = pending ∧
      (∀ c ∈ chunks maxPar pending, c.length ≤ maxPar ∧ c ≠ []) ∧
      (∀ l : List TranscriptionJob, l.length = 5 →
        (chunks 2 l).map List.length = [2, 2, 1])) ∧
    (∀ k, k ≤ ctrs.length →
      (∀ ct ∈ ctrs.take k, ∀ j ∈ ct.1, ∃ jT,
        rget? (runChunks w0 (ctrs.take k)).jobs j.id = some jT ∧
          isTerminal jT.status = true) ∧
      (∀ ct ∈ ctrs.drop k, ∀ j ∈ ct.1,
        rget? (runChunks w0 (ctrs.take k)).jobs j.id = some j ∧
          j.status = FileStatus.Pending)) ∧
    (∀ k, ∀ (hk : k < ctrs.length), ∀ pre, pre <+: (ctrs.get ⟨k, hk⟩).2 →
      activeCount (runEvents (runChunks w0 (ctrs.take k)) pre).jobs ≤ maxPar) := by
  have hmemchunk : ∀ ct ∈ ctrs, ct.1 ∈ chunks maxPar pending := by
    intro ct h
    rw [← hchunks]
    exact List.mem_map_of_mem Prod.fst h
  have hcap : ∀ ct ∈ ctrs, ct.1.length ≤ maxPar := fun ct h =>
    (chunks_mem maxPar hpar pending ct.1 (hmemchunk ct h)).1
  have hsubpend : ∀ ct ∈ ctrs, ∀ j ∈ ct.1, j ∈ pending := by
    intro ct h j hj
    rw [← chunks_flatten maxPar hpar pending]
    exact List.mem_flatten.mpr ⟨ct.1, hmemchunk ct h, hj⟩
  have hndfl : ((ctrs.map fun ct => ct.1.map TranscriptionJob.id).flatten).Nodup := by
    have h1 : (ctrs.map fun ct => ct.1.map TranscriptionJob.id) =
        (chunks maxPar pending).map fun c => c.map TranscriptionJob.id := by
      rw [← hchunks, List.map_map]
      rfl
    rw [h1, ← List.map_flatten, chunks_flatten maxPar hpar pending]
    exact hnd
  obtain ⟨hA, hC, hB⟩ := sched_run envOf maxPar ctrs w0 hct
    (fun ct h j hj => hpend j (hsubpend ct h j hj)) hndfl hkeys hinact hcap
  exact ⟨⟨chunks_flatten maxPar hpar pending,
    fun c hc => chunks_mem maxPar hpar pending c hc,
    fun l hl => chunks_map_length_five l hl⟩, hA, hB⟩

/-- The concrete one-job instance used by the C8 witness. -/
def c8wJob : TranscriptionJob :=
  mkJob ⟨"a", ⟨["d"], "x", some "mp3"⟩, "x.mp3", 1, FileStatus.Pending, 0,
      none, none⟩
    ⟨none, "base", OutputFormat.Srt, true, none, 1⟩

def c8wEnv : JobEnv := ⟨none, true, true, true, "", [], [], true, ""⟩

def c8wWorld : World := ⟨[("a", c8wJob)], [], [get_model_path "base"]⟩

def c8wCtrs : List (List TranscriptionJob × List PipelineEvent) :=
  [([c8wJob], jobEvents c8wEnv c8wJob)]

/-- Witness for C8 on the one-job, one-chunk instance. -/
theorem c8_chunked_dispatch_witness :
    ((chunks 1 [c8wJob]).flatten = [c8wJob] ∧
      (∀ c ∈ chunks 1 [c8wJob], c.length ≤ 1 ∧ c ≠ []) ∧
      (∀ l : List TranscriptionJob, l.length = 5 →
        (chunks 2 l).map List.length = [2, 2, 1])) ∧
    (∀ k, k ≤ c8wCtrs.length →
      (∀ ct ∈ c8wCtrs.take k, ∀ j ∈ ct.1, ∃ jT,
        rget? (runChunks c8wWorld (c8wCtrs.take k)).jobs j.id = some jT ∧
          isTerminal jT.status = true) ∧
      (∀ ct ∈ c8wCtrs.drop k, ∀ j ∈ ct.1,
        rget? (runChunks c8wWorld (c8wCtrs.take k)).jobs j.id = some j ∧
          j.status = FileStatus.Pending)) ∧
    (∀ k, ∀ (hk : k < c8wCtrs.length), ∀ pre,
      pre <+: (c8wCtrs.get ⟨k, hk⟩).2 →
      activeCount (runEvents (runChunks c8wWorld (c8wCtrs.take k)) pre).jobs
        ≤ 1) := by
  have h := c8_chunked_dispatch (fun _ => c8wEnv) 1 [c8wJob] c8wWorld c8wCtrs
    (by decide)
    rfl
    (by decide)
    (fun j hj => by cases List.mem_singleton.mp hj; exact ⟨rfl, rfl⟩)
    (by decide)
    (by
      intro i v hv
      simp only [c8wWorld, rget?] at hv
      split at hv
      · cases hv; rfl
      · cases hv)
    (by
      intro ct hctm
      cases List.mem_singleton.mp hctm
      refine ⟨?_, ?_⟩
      · intro j hj
        cases List.mem_singleton.mp hj
        rfl
      · intro e he i hei
        have hid := jobEvents_ids c8wEnv c8wJob e he i hei
        simp [hid, c8wJob, mkJob])
  exact h

end WhisperTauri
